import Mathlib

/-!
Verification of the natural-language specification of the PluginAutomation
repository (`src/generateReadmes.ts`, `src/npmDownloadStats.ts`,
`assets/readme-template.md`) against a shallow embedding of its code.

Strings are modelled as Lean `String`s, with all operations defined over
`String.data : List Char`.  JavaScript string-returning operations
(`String.prototype.replace` with a string pattern, global regex scans,
`split`, `trim`, `slice`, `Math.round`, default `Array.prototype.sort`)
are each given a small executable Lean counterpart whose doc comment names
the JavaScript operation it embeds.  File-system and network effects are
passed in as explicit parameters (an environment record, a `pathExists`
predicate, a download-statistics oracle), and exceptions are modelled with
`Except` / explicit outcome values.
-/

set_option maxHeartbeats 4000000
set_option maxRecDepth 8192

namespace PluginAutomation

/-! ## Generic string primitives (over `List Char`) -/


/-- Boolean test that `p` is a leading segment of `s` (character-wise). -/
def isPre : List Char → List Char → Bool
  | [], _ => true
  | _ :: _, [] => false
  | a :: as, b :: bs => a == b && isPre as bs

/-- Boolean test that `p` occurs somewhere inside `s` (as a contiguous run),
the model of JavaScript `String.prototype.includes`. -/
def occursB (p : List Char) : List Char → Bool
  | [] => p.isEmpty
  | c :: s => isPre p (c :: s) || occursB p s

/-- The whitespace characters recognised by JavaScript `\s` / `trim`
(restricted to the ASCII whitespace actually occurring in this code base). -/
def jsWs (c : Char) : Bool :=
  c == ' ' || c == '\t' || c == '\n' || c == '\r'

/-- Word characters of the JavaScript `\w` character class. -/
def wordChar (c : Char) : Bool :=
  ('a' ≤ c && c ≤ 'z') || ('A' ≤ c && c ≤ 'Z') || ('0' ≤ c && c ≤ '9') || c == '_'

/-- First character of the `\b[a-zA-Z_]\w+\b` reference pattern. -/
def wordStartChar (c : Char) : Bool :=
  ('a' ≤ c && c ≤ 'z') || ('A' ≤ c && c ≤ 'Z') || c == '_'

/-- Model of JavaScript `String.prototype.trim`. -/
def jsTrimL (l : List Char) : List Char :=
  ((l.dropWhile (jsWs ·)).reverse.dropWhile (jsWs ·)).reverse

/-- Model of JavaScript `String.prototype.trim` on `String`. -/
def jsTrim (s : String) : String := ⟨jsTrimL s.data⟩

/-- Model of JavaScript `String.prototype.split` with a single-character
separator (used for `url.split('/')` and `match.split(',')`). -/
def splitChar (sep : Char) : List Char → List (List Char)
  | [] => [[]]
  | c :: t =>
    match splitChar sep t, c == sep with
    | r, true => [] :: r
    | [], false => [[c]]
    | h :: r, false => (c :: h) :: r

/-- Model of JavaScript `String.prototype.split` with a multi-character
separator string (used for `piece.split(' as ')`).  `fuel` bounds the scan. -/
def splitOnSubGo (sep : List Char) (fuel : Nat) (acc : List Char) (s : List Char) :
    List (List Char) :=
  match fuel, s with
  | 0, s => [acc.reverse ++ s]
  | _ + 1, [] => [acc.reverse]
  | fuel + 1, c :: t =>
    if sep ≠ [] ∧ isPre sep (c :: t) then
      acc.reverse :: splitOnSubGo sep fuel [] (List.drop (sep.length - 1) t)
    else
      splitOnSubGo sep fuel (c :: acc) t

/-- JavaScript `s.split(sep)` for a non-empty separator string. -/
def splitOnSub (sep : List Char) (s : List Char) : List (List Char) :=
  splitOnSubGo sep s.length [] s

/-- Model of JavaScript `String.prototype.replace` with a *string* pattern,
which replaces only the first occurrence (`generateReadmes.ts` uses this for
the scope rename and for stripping a `.git` suffix). -/
def replaceFirst (pat rep : List Char) : List Char → List Char
  | [] => if pat.isEmpty then rep else []
  | c :: s =>
    if pat ≠ [] ∧ isPre pat (c :: s) then
      rep ++ List.drop (pat.length - 1) s
    else if pat.isEmpty then rep ++ c :: s
    else c :: replaceFirst pat rep s

/-- Fuel-driven worker for `replaceAll`; the fuel always dominates the
length of the remaining text, so the `0` case is never reached from
`replaceAll`. -/
def replaceAllGo (pat rep : List Char) : Nat → List Char → List Char
  | 0, s => s
  | _ + 1, [] => []
  | fuel + 1, c :: s =>
    if pat ≠ [] ∧ isPre pat (c :: s) then
      rep ++ replaceAllGo pat rep fuel (List.drop (pat.length - 1) s)
    else
      c :: replaceAllGo pat rep fuel s

/-- Model of JavaScript `String.prototype.replace` with a *global literal
regex* (`/…/g` over a fixed word): every non-overlapping occurrence of
`pat`, scanned left to right, is replaced by `rep`; the replacement text is
not rescanned.  Replacement-string dollar escapes (`$&`, `$\x27`, `$$`,
backreference forms) are not modelled: `rep` is inserted literally, which
agrees with JavaScript exactly when `rep` contains no `$`.  A theorem
below that quantifies over a replacement value therefore carries an
explicit no-`$` hypothesis on that value, confining it to the inputs on
which this embedding is faithful. -/
def replaceAll (pat rep s : List Char) : List Char :=
  replaceAllGo pat rep s.length s

/-- Sequential application of a list of `(pattern, replacement)` pairs, the
model of a chain of `.replace(/…/g, …)` calls. -/
def applyChain (subs : List (List Char × List Char)) (s : List Char) : List Char :=
  subs.foldl (fun acc pr => replaceAll pr.1 pr.2 acc) s

/-- Lexicographic comparison of character lists by code point, the string
order used by a default (comparator-less) JavaScript `Array.prototype.sort`
on the ASCII identifiers collected by the environment scan. -/
def strLeB : List Char → List Char → Bool
  | [], _ => true
  | _ :: _, [] => false
  | a :: as, b :: bs => if a = b then strLeB as bs else decide (a < b)

/-- Lexicographic order on strings (by code point). -/
def strLe (a b : String) : Prop := strLeB a.data b.data = true

instance : DecidableRel strLe :=
  fun a b => inferInstanceAs (Decidable (strLeB a.data b.data = true))

instance : IsTotal String strLe :=
  ⟨fun a b => by
    show strLeB a.data b.data = true ∨ strLeB b.data a.data = true
    generalize a.data = p
    generalize b.data = q
    induction p generalizing q with
    | nil => exact Or.inl rfl
    | cons x xs ih =>
      cases q with
      | nil => exact Or.inr rfl
      | cons y ys =>
        by_cases hxy : x = y
        · subst hxy
          simpa [strLeB] using ih ys
        · rcases lt_or_gt_of_ne hxy with h | h
          · exact Or.inl (by simp [strLeB, hxy, h])
          · exact Or.inr (by simp [strLeB, Ne.symm hxy, h])⟩

instance : IsTrans String strLe :=
  ⟨fun a b c hab hbc => by
    have key : ∀ p q r : List Char,
        strLeB p q = true → strLeB q r = true → strLeB p r = true := by
      intro p
      induction p with
      | nil => intro q r _ _; rfl
      | cons x xs ih =>
        intro q r hab hbc
        cases q with
        | nil => simp [strLeB] at hab
        | cons y ys =>
          cases r with
          | nil => simp [strLeB] at hbc
          | cons z zs =>
            by_cases hxy : x = y <;> by_cases hyz : y = z
            · subst hxy; subst hyz
              simp only [strLeB, if_pos rfl] at *
              exact ih ys zs hab hbc
            · subst hxy
              simpa [strLeB, hyz] using hbc
            · subst hyz
              simpa [strLeB, hxy] using hab
            · simp only [strLeB, if_neg hxy, decide_eq_true_eq] at hab
              simp only [strLeB, if_neg hyz, decide_eq_true_eq] at hbc
              have hxz : x < z := lt_trans hab hbc
              simp [strLeB, ne_of_lt hxz, hxz]
    exact key a.data b.data c.data hab hbc⟩

instance : IsAntisymm String strLe :=
  ⟨fun a b hab hba => by
    have key : ∀ p q : List Char,
        strLeB p q = true → strLeB q p = true → p = q := by
      intro p
      induction p with
      | nil =>
        intro q _ hba
        cases q with
        | nil => rfl
        | cons y ys => simp [strLeB] at hba
      | cons x xs ih =>
        intro q hab hba
        cases q with
        | nil => simp [strLeB] at hab
        | cons y ys =>
          by_cases hxy : x = y
          · subst hxy
            simp only [strLeB, if_pos rfl] at hab hba
            rw [ih ys hab hba]
          · simp only [strLeB, if_neg hxy, decide_eq_true_eq] at hab
            simp only [strLeB, if_neg (Ne.symm hxy), decide_eq_true_eq] at hba
            exact absurd hab (not_lt_of_gt hba)
    cases a; cases b
    exact congrArg String.mk (key _ _ hab hba)⟩

/-- Insertion into a JavaScript `Set` materialised as a list: membership is
checked first, and a new element is appended at the end (insertion order). -/
def insertVar (acc : List String) (v : String) : List String :=
  if v ∈ acc then acc else acc ++ [v]

/-- Model of JavaScript `Array.prototype.join(sep)`. -/
def joinSep (sep : String) : List String → String
  | [] => ( "")
  | [x] => x
  | x :: y :: t => ⟨x.data ++ sep.data ++ (joinSep sep (y :: t)).data⟩

/-- ASCII lower-casing, the model of `String.prototype.toLowerCase` on the
ASCII identifiers this script feeds it. -/
def lowerAscii (s : String) : String := ⟨s.data.map Char.toLower⟩

/-- Model of JavaScript `Math.round(a / b)` for non-negative integers `a`
and `b > 0` (exact rational arithmetic: round half up). -/
def jsRound (a b : Nat) : Nat := (2 * a + b) / (2 * b)

/-- Model of JavaScript `Array.prototype.slice(-10)`. -/
def sliceLastTen {α : Type} (l : List α) : List α := l.drop (l.length - 10)

/-- Boolean overlap-freedom of a region `v` with a scan pattern `pat`:
`v` is not contained in `pat`; no non-empty tail segment of `pat` starts
`v`; and no proper non-empty tail segment of `v` is prefix-compatible with
`pat` in either direction.  These conditions make a match region of `pat`
disjoint from any occurrence of `v`. -/
def noClash (v pat : List Char) : Bool :=
  !(occursB v pat) &&
  (pat.tails.all fun z => z.isEmpty || !(isPre z v)) &&
  (v.tails.all fun z => z.isEmpty || z == v || (!(isPre z pat) && !(isPre pat z)))

/-! ## Data model of `generateReadmes.ts`

`ComponentInfo` mirrors the TypeScript interface of the same name.  Fields
that are optional in TypeScript and used there only through `x || default`
(strings) or `x && x.length > 0` (lists) are modelled as plain strings and
lists, with the empty string / empty list playing the role of the absent
(falsy) value — exactly the branch structure the JavaScript code observes.
-/

structure ParamInfo where
  name : String
  type : String
  required : Bool
  description : String
deriving DecidableEq

structure MethodInfo where
  name : String
  parameters : String
  description : String
deriving DecidableEq

structure ComponentInfo where
  name : String
  description : String
  parameters : List ParamInfo
  returnType : String
  methods : List MethodInfo
  aliases : List String
  usageExample : String
  configuration : String
deriving DecidableEq

structure PluginInfo where
  name : String
  description : String
  packageName : String
  actions : List ComponentInfo
  services : List ComponentInfo
  providers : List ComponentInfo
  events : List String
  evaluators : List String
  envVars : List String
  dependencies : List String
  repository : String
  hasTests : Bool
deriving DecidableEq

/-- JavaScript `x || d` on strings: the empty string is falsy. -/
def jsOr (s d : String) : String := if s.data.isEmpty then d else s

/-- String concatenation that keeps the `List Char` model explicit. -/
def strCat (a b : String) : String := ⟨a.data ++ b.data⟩

/-- The `envVarsSection` value of `generateReadmeFromTemplate`
(`generateReadmes.ts` lines 1068-1071). -/
def envVarsSection (pi : PluginInfo) : String :=
  if pi.envVars.isEmpty then ( "# No environment variables required")
  else joinSep ( "\n")
    (pi.envVars.map fun env =>
      strCat env (strCat ( "=your_") (strCat (lowerAscii env) ( "_here"))))

/-- The `actionsSection` value (lines 1074-1077). -/
def actionsListSection (pi : PluginInfo) : String :=
  if pi.actions.isEmpty then ( "- No actions available")
  else joinSep ( "\n")
    (pi.actions.map fun a => strCat ( "- **") (strCat a.name ( "**: <!-- TODO: Add description -->")))

/-- The `servicesSection` value (lines 1080-1083). -/
def servicesListSection (pi : PluginInfo) : String :=
  if pi.services.isEmpty then ( "- No services available")
  else joinSep ( "\n")
    (pi.services.map fun s => strCat ( "- **") (strCat s.name ( "**: <!-- TODO: Add description -->")))

/-- The `providersSection` value (lines 1086-1089). -/
def providersListSection (pi : PluginInfo) : String :=
  if pi.providers.isEmpty then ( "- No providers available")
  else joinSep ( "\n")
    (pi.providers.map fun p => strCat ( "- **") (strCat p.name ( "**: <!-- TODO: Add description -->")))

/-- One parameter row of the action detail table (lines 1102-1104). -/
def paramRow (p : ParamInfo) : String :=
  strCat ( "| `") (strCat p.name (strCat ( "` | `") (strCat p.type
    (strCat ( "` | ") (strCat (if p.required then ( "Yes") else ( "No"))
      (strCat ( " | ") (strCat p.description ( " |\n"))))))))

/-- The detail block of one action (lines 1094-1121). -/
def actionDetail (a : ComponentInfo) : String :=
  strCat ( "#### ") (strCat a.name (strCat ( "\n\n")
    (strCat (jsOr a.description ( "Description of this action")) (strCat ( "\n\n")
    (strCat
      (if a.parameters.isEmpty then
        ( "**Parameters:** This action does not require any parameters.\n\n")
      else
        strCat ( "**Parameters:**\n\n| Parameter | Type | Required | Description |\n|-----------|------|----------|-------------|\n")
          (strCat (joinSep ( "") (a.parameters.map paramRow)) ( "\n")))
    (strCat
      (strCat ( "**Usage:**\n```typescript\n// Example usage of ")
        (strCat a.name (strCat ( "\n")
          (strCat (jsOr a.usageExample
              (strCat ( "await runtime.useAction(\x27")
                (strCat a.name ( "\x27, \x7b /* parameters */ \x7d);"))))
            ( "\n```\n\n")))))
    (strCat
      (if a.returnType.data.isEmpty then ( "")
       else strCat ( "**Output:**\n```typescript\n") (strCat a.returnType ( "\n```\n\n")))
      (if a.aliases.isEmpty then ( "")
       else strCat ( "**Aliases:** ") (strCat (joinSep ( ", ") a.aliases) ( "\n\n"))))))))))

/-- The `actionsDetailed` value (lines 1092-1124). -/
def actionsDetailedSection (pi : PluginInfo) : String :=
  if pi.actions.isEmpty then ( "No actions found in this plugin.")
  else joinSep ( "\n---\n\n") (pi.actions.map actionDetail)

/-- One method row of the service detail block (lines 1135-1137). -/
def methodRow (m : MethodInfo) : String :=
  strCat ( "- `") (strCat m.name (strCat ( "(") (strCat m.parameters
    (strCat ( ")`: ") (strCat (jsOr m.description ( "Method description")) ( "\n"))))))

/-- The detail block of one service (lines 1129-1147). -/
def serviceDetail (s : ComponentInfo) : String :=
  strCat ( "#### ") (strCat s.name (strCat ( "\n\n")
    (strCat (jsOr s.description ( "Description of this service")) (strCat ( "\n\n")
    (strCat
      (if s.methods.isEmpty then ( "")
       else strCat ( "**Methods:**\n\n")
         (strCat (joinSep ( "") (s.methods.map methodRow)) ( "\n")))
    (strCat
      (if s.configuration.data.isEmpty then ( "")
       else strCat ( "**Configuration:**\n```typescript\n") (strCat s.configuration ( "\n```\n\n")))
      (strCat ( "**Usage Example:**\n```typescript\n")
        (strCat (jsOr s.usageExample
            (strCat ( "const service = runtime.getService(\x27")
              (strCat s.name ( "\x27);\n// Use service methods here"))))
          ( "\n```\n\n")))))))))

/-- The `servicesDetailed` value (lines 1127-1151). -/
def servicesDetailedSection (pi : PluginInfo) : String :=
  if pi.services.isEmpty then ( "No services found in this plugin.")
  else joinSep ( "\n---\n\n") (pi.services.map serviceDetail)

/-- The detail block of one provider (lines 1156-1167). -/
def providerDetail (p : ComponentInfo) : String :=
  strCat ( "#### ") (strCat p.name (strCat ( "\n\n")
    (strCat (jsOr p.description ( "Description of this provider")) (strCat ( "\n\n")
    (strCat
      (strCat ( "**Provided Context:**\n```typescript\n")
        (strCat (jsOr p.returnType ( "// Context structure")) ( "\n```\n\n")))
    (strCat
      (strCat ( "**Usage:**\n```typescript\n// The ")
        (strCat p.name (strCat ( " provider supplies the following context\n")
          (strCat (jsOr p.usageExample ( "// Context is automatically included in agent prompts"))
            ( "\n```\n\n")))))
      (strCat ( "**When This Provider Runs:**\n")
        (strCat (jsOr p.configuration
            ( "This provider runs before each agent action to supply relevant context."))
          ( "\n\n")))))))))

/-- The `providersDetailed` value (lines 1153-1170). -/
def providersDetailedSection (pi : PluginInfo) : String :=
  if pi.providers.isEmpty then ( "No providers found in this plugin.")
  else joinSep ( "\n---\n\n") (pi.providers.map providerDetail)

/-- The template placeholders replaced by `generateReadmeFromTemplate`. -/
def phPluginName : String := ( "\x7b\x7bPLUGIN_NAME\x7d\x7d")

def phPluginDescription : String := ( "\x7b\x7bPLUGIN_DESCRIPTION\x7d\x7d")

def phPackageName : String := ( "\x7b\x7bPACKAGE_NAME\x7d\x7d")

def phRepositoryUrl : String := ( "\x7b\x7bREPOSITORY_URL\x7d\x7d")

def phEnvVars : String := ( "\x7b\x7bENV_VARS\x7d\x7d")

def phActionsList : String := ( "\x7b\x7bACTIONS_LIST\x7d\x7d")

def phServicesList : String := ( "\x7b\x7bSERVICES_LIST\x7d\x7d")

def phProvidersList : String := ( "\x7b\x7bPROVIDERS_LIST\x7d\x7d")

def phActionsDetailed : String := ( "\x7b\x7bACTIONS_DETAILED\x7d\x7d")

def phServicesDetailed : String := ( "\x7b\x7bSERVICES_DETAILED\x7d\x7d")

def phProvidersDetailed : String := ( "\x7b\x7bPROVIDERS_DETAILED\x7d\x7d")

/-- The ordered chain of global replacements performed by
`generateReadmeFromTemplate` (`generateReadmes.ts` lines 1061-1175), one
`(pattern, replacement)` pair per `.replace(/…/g, …)` call. -/
def substitutionChain (pi : PluginInfo) : List (List Char × List Char) :=
  [ (phPluginName.data, pi.packageName.data),
    (phPluginDescription.data, pi.description.data),
    (phPackageName.data, pi.packageName.data),
    (phRepositoryUrl.data, pi.repository.data),
    (phEnvVars.data, (envVarsSection pi).data),
    (phActionsList.data, (actionsListSection pi).data),
    (phServicesList.data, (servicesListSection pi).data),
    (phProvidersList.data, (providersListSection pi).data),
    (phActionsDetailed.data, (actionsDetailedSection pi).data),
    (phServicesDetailed.data, (servicesDetailedSection pi).data),
    (phProvidersDetailed.data, (providersDetailedSection pi).data) ]

/-- Model of `generateReadmeFromTemplate` (lines 1057-1178): the template
file's text with every placeholder globally substituted.  The unused
`existingReadme` argument of the TypeScript function is omitted. -/
def generateReadmeFromTemplate (pi : PluginInfo) (template : String) : String :=
  ⟨applyChain (substitutionChain pi) template.data⟩

/-- Model of `generateReadmeWithAI` (lines 834-1055).  The chat-completion
call is abstracted by `completionContent`: `none` models the call throwing
(network/API error), `some c` models a response whose
`choices[0]?.message?.content` is `c` (with `none` for an absent content,
which the `|| ''` turns into the empty string).  A thrown error — including
the internal `throw` on a short response (lines 1000-1004) — is caught at
line 1048 and answered with the template fallback; a kept response is
returned trimmed (line 1047).  The length-ratio and section warnings
(lines 1007-1038) only log and are not modelled. -/
def generateReadmeWithAI (pi : PluginInfo) (template : String)
    (_existingReadme : Option String) (completionContent : Option (Option String)) : String :=
  match completionContent with
  | none => generateReadmeFromTemplate pi template
  | some contentOpt =>
    let readme := contentOpt.getD ( "")
    if readme.data.isEmpty ∨ (jsTrim readme).data.length < 500 then
      generateReadmeFromTemplate pi template
    else
      jsTrim readme

/-- The verbatim text of `assets/readme-template.md`, the template file
that `main` requires at `README_TEMPLATE_PATH` and `generateReadme`
passes to both generation paths (brace characters appear as `\x7b` /
`\x7d` escapes and apostrophes as `\x27`). -/
def readmeTemplateText : String :=
  "<!-- \nIMPORTANT: This template shows MINIMUM required sections only!\nYou MUST ALSO KEEP these sections if they exist in the current README:\n- Future Enhancements\n- Credits  \n- Security Best Practices\n- Development Guide\n- Any other custom sections\n\nDO NOT DELETE ANY EXISTING SECTIONS!\n-->\n\n# \x7b\x7bPLUGIN_NAME\x7d\x7d\n\n\x7b\x7bPLUGIN_DESCRIPTION\x7d\x7d\n\n## 🚀 Quick Start\n\n### Installation\n\n```bash\nbun add \x7b\x7bPACKAGE_NAME\x7d\x7d\n```\n\n### Basic Usage\n\nAdd the plugin to your character configuration:\n\n```typescript\nconst character = \x7b\n  // ... other character config\n  plugins: [\n    \"\x7b\x7bPACKAGE_NAME\x7d\x7d\",\n    // ... other plugins\n  ],\n\x7d;\n```\n\n## 📋 Prerequisites\n\n- [elizaOS](https://github.com/elizaos/eliza) v1.0.0 or higher\n- Node.js 23+ and Bun\n- Required API credentials (see Configuration)\n\n## 🔧 Configuration\n\n### Environment Variables\n\nCreate a `.env` file in your project root:\n\n```bash\n\x7b\x7bENV_VARS\x7d\x7d\n```\n\n### Configuration Options\n\nThe plugin accepts the following configuration options:\n\n```typescript\n// Example configuration\nconst config = \x7b\n  // Add specific configuration options here\n\x7d;\n```\n\n## ✨ Features\n\n### Core Features\n\n- **Feature 1**: Description of the main feature\n- **Feature 2**: Description of another feature\n- **Feature 3**: Description of another feature\n\n### Actions\n\n\x7b\x7bACTIONS_DETAILED\x7d\x7d\n\n### Services\n\n\x7b\x7bSERVICES_DETAILED\x7d\x7d\n\n### Providers\n\n\x7b\x7bPROVIDERS_DETAILED\x7d\x7d\n\n## 📖 Usage Examples\n\n### Basic Example\n\n```typescript\n// Example of using the plugin\nconst runtime = new AgentRuntime(\x7b\n  // ... runtime config\n  plugins: [\"\x7b\x7bPACKAGE_NAME\x7d\x7d\"],\n\x7d);\n```\n\n### Advanced Usage\n\n```typescript\n// More complex usage examples\n// Show how to use specific actions or services\n```\n\n## 🛠️ Development\n\n### Building\n\n```bash\n# Install dependencies\nbun install\n\n# Build the plugin\nbun run build\n\n# Run tests\nbun test\n```\n\n### Testing\n\n```bash\n# Run unit tests\nbun test\n\n# Run integration tests\nbun test:integration\n\n# Run with coverage\nbun test:coverage\n```\n\n### Local Development\n\n1. Clone the repository:\n```bash\ngit clone \x7b\x7bREPOSITORY_URL\x7d\x7d\ncd \x7b\x7bPLUGIN_NAME\x7d\x7d\n```\n\n2. Install dependencies:\n```bash\nbun install\n```\n\n3. Build the plugin:\n```bash\nbun run build\n```\n\n4. Link for local development:\n```bash\nbun link\n```\n\n## 🤝 Contributing\n\nContributions are welcome! Please see our [Contributing Guidelines](CONTRIBUTING.md) for details.\n\n### Development Workflow\n\n1. Fork the repository\n2. Create your feature branch (`git checkout -b feature/amazing-feature`)\n3. Commit your changes (`git commit -m \x27Add some amazing feature\x27`)\n4. Push to the branch (`git push origin feature/amazing-feature`)\n5. Open a Pull Request\n\n## 🐛 Troubleshooting\n\n### Common Issues\n\n#### Issue: Plugin not loading\n**Solution**: Ensure the plugin is properly added to your character\x27s `plugins` array and all required environment variables are set.\n\n#### Issue: API authentication errors\n**Solution**: Verify your API credentials are correct and have the necessary permissions.\n\n#### Issue: Rate limiting\n**Solution**: The plugin includes built-in rate limiting. If you\x27re hitting limits, consider adjusting the request frequency in your configuration.\n\n## 📚 API Reference\n\n### Actions\n\nDetailed documentation for each action:\n\n#### Action Name\n```typescript\n// Action signature\ninterface ActionOptions \x7b\n  // options\n\x7d\n```\n\n### Services\n\nDetailed documentation for each service:\n\n#### Service Name\n```typescript\n// Service interface\ninterface ServiceInterface \x7b\n  // methods\n\x7d\n```\n\n## 🔒 Security\n\n- Store all sensitive credentials in environment variables\n- Never commit `.env` files to version control\n- Regularly rotate API keys and tokens\n- Follow the principle of least privilege for API permissions\n\n## 📄 License\n\nThis plugin is part of the elizaOS project. See the [LICENSE](LICENSE) file for details.\n\n## 🆘 Support\n\n- 📧 Email: support@elizaos.ai\n- 💬 Discord: [elizaOS Discord](https://discord.gg/elizaos)\n- 📚 Documentation: [elizaOS Docs](https://eliza.how)\n- 🐛 Issues: [GitHub Issues](\x7b\x7bREPOSITORY_URL\x7d\x7d/issues)\n\n## 🙏 Acknowledgments\n\nSpecial thanks to the elizaOS team and all contributors to this plugin.\n\n---\n\nMade with ❤️ by the elizaOS community "

/-! ## Environment-variable scan (`extractPluginInfo`, lines 749-794)

The four call-site regexes are embedded as fuel-driven left-to-right
scanners with the `lastIndex` advance of a global JavaScript regex: after a
match the scan resumes past the match, after a failure it resumes one
character further.  All captured identifiers are `\w+` runs (ASCII), so the
code-point order used below coincides with the UTF-16 order of the default
`Array.prototype.sort`.
-/

/-- Captures of `/lit(\w+)/g` (used for `process\.env\.(\w+)`). -/
def scanEnvLit (lit : List Char) : Nat → List Char → List String
  | 0, _ => []
  | _ + 1, [] => []
  | fuel + 1, c :: t =>
    if isPre lit (c :: t) then
      let tail := List.drop (lit.length - 1) t
      let w := tail.takeWhile (wordChar ·)
      if w.isEmpty then scanEnvLit lit fuel t
      else ⟨w⟩ :: scanEnvLit lit fuel (tail.drop w.length)
    else scanEnvLit lit fuel t

/-- Captures of `/lit['"](\w+)['"]\)/g` (used for the three settings-getter
patterns, whose literal part ends in the opening parenthesis). -/
def scanCallQ (lit : List Char) : Nat → List Char → List String
  | 0, _ => []
  | _ + 1, [] => []
  | fuel + 1, c :: t =>
    if isPre lit (c :: t) then
      match List.drop (lit.length - 1) t with
      | q1 :: rest =>
        if q1 == '\x27' || q1 == '"' then
          let w := rest.takeWhile (wordChar ·)
          if w.isEmpty then scanCallQ lit fuel t
          else
            match rest.drop w.length with
            | q2 :: cp :: r3 =>
              if (q2 == '\x27' || q2 == '"') && cp == ')' then
                ⟨w⟩ :: scanCallQ lit fuel r3
              else scanCallQ lit fuel t
            | _ => scanCallQ lit fuel t
        else scanCallQ lit fuel t
      | [] => scanCallQ lit fuel t
    else scanCallQ lit fuel t

/-- All identifiers captured in one file by the four `envPatterns`
(lines 766-781), in scan order. -/
def envCaptures (content : String) : List String :=
  scanEnvLit ( "process.env.").data content.data.length content.data ++
  scanCallQ ( "getSetting(").data content.data.length content.data ++
  scanCallQ ( "getEnv(").data content.data.length content.data ++
  scanCallQ ( "runtime.getSetting(").data content.data.length content.data

/-- The `envVars : Set<string>` accumulated over the scanned source files
(the recursive walk is abstracted to the list of the `.ts`/`.js` file
contents it visits, in visit order). -/
def collectEnvVars (files : List String) : List String :=
  files.foldl (fun acc f => (envCaptures f).foldl insertVar acc) []

/-- `pluginInfo.envVars = Array.from(envVars).sort()` (line 794). -/
def envVarsResult (files : List String) : List String :=
  List.insertionSort strLe (collectEnvVars files)

/-! ## Scope normalization (`extractPluginInfo`, line 713) -/

/-- `(packageJson.name || '').replace('@elizaos-plugins/', '@elizaos/')` —
a string-pattern `replace`, so only the first occurrence is rewritten. -/
def normalizeScope (name : String) : String :=
  ⟨replaceFirst ( "@elizaos-plugins/").data ( "@elizaos/").data name.data⟩

/-! ## Service-method recovery (`extractDetailedComponentInfo`, lines 285-310) -/

/-- The tail of the method regex after the captured name:
`\s*\([^)]*\)\s*(?::\s*[^\x7b]+)?\s*\x7b`. -/
def methodCore (s : List Char) : Option (List Char × List Char) :=
  let w := s.takeWhile (wordChar ·)
  if w.isEmpty then none
  else
    let r2 := (s.drop w.length).dropWhile (jsWs ·)
    match r2 with
    | '(' :: r3 =>
      let params := r3.takeWhile (fun c => !(c == ')'))
      match r3.drop params.length with
      | ')' :: r4 =>
        match r4.dropWhile (jsWs ·) with
        | '\x7b' :: r6 => some (w, r6)
        | ':' :: r7 =>
          let r8 := r7.dropWhile (jsWs ·)
          let ann := r8.takeWhile (fun c => !(c == '\x7b'))
          if ann.isEmpty then none
          else
            match r8.drop ann.length with
            | '\x7b' :: r9 => some (w, r9)
            | _ => none
        | _ => none
      | _ => none
    | _ => none

/-- One attempted match of `/(?:async\s+)?(\w+)\s*\([^)]*\)\s*(?::\s*[^\x7b]+)?\s*\x7b/`
at the current position: the optional `async\s+` prefix is tried first,
exactly as the regex engine does. -/
def methodMatchAt (s : List Char) : Option (List Char × List Char) :=
  if isPre ( "async").data s then
    let afterLit := s.drop 5
    let ws := afterLit.takeWhile (jsWs ·)
    if ws.isEmpty then methodCore s
    else
      match methodCore (afterLit.drop ws.length) with
      | some r => some r
      | none => methodCore s
  else methodCore s

/-- All names captured by the global method regex over a source text. -/
def scanMethods : Nat → List Char → List String
  | 0, _ => []
  | _ + 1, [] => []
  | fuel + 1, c :: t =>
    match methodMatchAt (c :: t) with
    | some (w, rest) => ⟨w⟩ :: scanMethods fuel rest
    | none => scanMethods fuel t

/-- The raw method-call-like captures of the `services` branch. -/
def serviceMethodCaptures (source : String) : List String :=
  scanMethods source.data.length source.data

/-- The recovered method names: captures filtered by
`methodName !== 'constructor' && !methodName.startsWith('_')` (line 293).
The accompanying parameter strings (from the follow-up `fullMethodRegex`
search, which always succeeds at least at the capture site) carry no
information used by any claim and are omitted. -/
def extractServiceMethodNames (source : String) : List String :=
  (serviceMethodCaptures source).filter
    (fun n => n != ( "constructor") && !(isPre ( "_").data n.data))

/-! ## Component extraction from the index file
(`extractPluginComponents`, lines 347-458)

Only the recorded component *names* are modelled: the optional
`readComponentSource` / `extractDetailedComponentInfo` enrichment reads
other files and never changes the `name` field recorded for a component.
-/

/-- One parsed import statement matching
`/import\s+(?:\x7b([^\x7d]+)\x7d|(\w+))\s+from\s+["']DIR(?:\/([^"']+))?["']/`. -/
inductive ImportGroup where
  | named (body : List Char)
  | dflt (name : List Char)

/-- The `\s+from\s+["']DIR(?:\/([^"']+))?["']` tail of the import regex. -/
def importTail (dir : List Char) (g : ImportGroup) (s : List Char) :
    Option (ImportGroup × List Char) :=
  let ws1 := s.takeWhile (jsWs ·)
  if ws1.isEmpty then none
  else
    let r1 := s.drop ws1.length
    if isPre ( "from").data r1 then
      let r2 := r1.drop 4
      let ws2 := r2.takeWhile (jsWs ·)
      if ws2.isEmpty then none
      else
        match r2.drop ws2.length with
        | q1 :: r3 =>
          if q1 == '\x27' || q1 == '"' then
            if isPre dir r3 then
              match r3.drop dir.length with
              | '/' :: r5 =>
                let sub := r5.takeWhile (fun c => !(c == '\x27' || c == '"'))
                if sub.isEmpty then none
                else
                  match r5.drop sub.length with
                  | q2 :: r6 =>
                    if q2 == '\x27' || q2 == '"' then some (g, r6) else none
                  | _ => none
              | q2 :: r6 =>
                if q2 == '\x27' || q2 == '"' then some (g, r6) else none
              | _ => none
            else none
          else none
        | _ => none
    else none

/-- One attempted match of the import regex at the current position. -/
def importMatchAt (dir : List Char) (s : List Char) : Option (ImportGroup × List Char) :=
  if isPre ( "import").data s then
    let r1 := s.drop 6
    let ws1 := r1.takeWhile (jsWs ·)
    if ws1.isEmpty then none
    else
      let r2 := r1.drop ws1.length
      match r2 with
      | '\x7b' :: r3 =>
        let body := r3.takeWhile (fun c => !(c == '\x7d'))
        if body.isEmpty then none
        else
          match r3.drop body.length with
          | '\x7d' :: r4 => importTail dir (ImportGroup.named body) r4
          | _ => none
      | _ =>
        let w := r2.takeWhile (wordChar ·)
        if w.isEmpty then none
        else importTail dir (ImportGroup.dflt w) (r2.drop w.length)
  else none

/-- All matches of the global import regex, in scan order. -/
def scanImports (dir : List Char) : Nat → List Char → List ImportGroup
  | 0, _ => []
  | _ + 1, [] => []
  | fuel + 1, c :: t =>
    match importMatchAt dir (c :: t) with
    | some (g, rest) => g :: scanImports dir fuel rest
    | none => scanImports dir fuel t

/-- JavaScript `Map.prototype.set`: overwrite an existing key in place,
append a new one. -/
def setEntry : List (String × String) → String → String → List (String × String)
  | [], k, v => [(k, v)]
  | (k0, v0) :: r, k, v =>
    if k0 = k then (k, v) :: r else (k0, v0) :: setEntry r k v

/-- Processing of one named-import body (lines 376-384):
split on `,`, trim, split each piece on the literal `' as '`, and map the
alias (last part) to the original name (first part, or the alias itself
when the first part is empty). -/
def addImportPieces (m : List (String × String)) (body : List Char) :
    List (String × String) :=
  (splitChar ',' body).foldl
    (fun acc piece =>
      let pieceT := jsTrimL piece
      let parts := splitOnSub ( " as ").data pieceT
      let aliasName := parts.getLast?.getD []
      let p0 := parts.head?.getD []
      let original := if p0.isEmpty then aliasName else p0
      if aliasName.isEmpty ∨ original.isEmpty then acc
      else setEntry acc ⟨aliasName⟩ ⟨original⟩)
    m

/-- The `actionImports` alias map (lines 370-389). -/
def buildActionImports (content : String) : List (String × String) :=
  (scanImports ( "./actions").data content.data.length content.data).foldl
    (fun m g =>
      match g with
      | ImportGroup.named body => addImportPieces m body
      | ImportGroup.dflt w => setEntry m ⟨w⟩ ⟨w⟩)
    []

/-- `content.replace(/\/\/.*$/gm, '')`: cut each line at its first `//`. -/
def stripLineComments : Nat → List Char → List Char
  | 0, s => s
  | _ + 1, [] => []
  | fuel + 1, c :: t =>
    if isPre ( "//").data (c :: t) then
      stripLineComments fuel ((c :: t).dropWhile (fun x => !(x == '\n')))
    else c :: stripLineComments fuel t

/-- Helper for block comments: the text after the first `*/`. -/
def dropAfterClose : Nat → List Char → Option (List Char)
  | 0, _ => none
  | _ + 1, [] => none
  | fuel + 1, c :: t =>
    if isPre ( "*/").data (c :: t) then some (t.drop 1)
    else dropAfterClose fuel t

/-- `content.replace(/\/\*[\s\S]*?\*\//g, '')`: drop each `/*`…`*/` block. -/
def stripBlockComments : Nat → List Char → List Char
  | 0, s => s
  | _ + 1, [] => []
  | fuel + 1, c :: t =>
    if isPre ( "/*").data (c :: t) then
      match dropAfterClose t.length (t.drop 1) with
      | some rest => stripBlockComments fuel rest
      | none => c :: stripBlockComments fuel t
    else c :: stripBlockComments fuel t

/-- The `cleanContent` of lines 398-400 / 471-473: line comments are
removed first, then block comments. -/
def removeComments (l : List Char) : List Char :=
  let l1 := stripLineComments l.length l
  stripBlockComments l1.length l1

/-- First-successful-position scan of a positional matcher, the model of a
non-global `content.match(pattern)`. -/
def scanFirst {α : Type} (f : List Char → Option α) : Nat → List Char → Option α
  | 0, _ => none
  | _ + 1, [] => none
  | fuel + 1, c :: t =>
    match f (c :: t) with
    | some r => some r
    | none => scanFirst f fuel t

/-- `lit\s*\[(.*?)\]` at the current position (the lazy group runs to the
first `]`). -/
def arrayLitAt (lit : List Char) (s : List Char) : Option (List Char) :=
  if isPre lit s then
    let r2 := (s.drop lit.length).dropWhile (jsWs ·)
    match r2 with
    | '[' :: r3 =>
      let body := r3.takeWhile (fun x => !(x == ']'))
      match r3.drop body.length with
      | ']' :: _ => some body
      | _ => none
    | _ => none
  else none

/-- `export\s+const\s+WORD\s*=\s*\[(.*?)\]` at the current position. -/
def exportConstArrayAt (word : List Char) (s : List Char) : Option (List Char) :=
  if isPre ( "export").data s then
    let r1 := s.drop 6
    let ws1 := r1.takeWhile (jsWs ·)
    if ws1.isEmpty then none
    else
      let r2 := r1.drop ws1.length
      if isPre ( "const").data r2 then
        let r3 := r2.drop 5
        let ws2 := r3.takeWhile (jsWs ·)
        if ws2.isEmpty then none
        else
          let r4 := r3.drop ws2.length
          if isPre word r4 then
            match (r4.drop word.length).dropWhile (jsWs ·) with
            | '=' :: r6 =>
              match r6.dropWhile (jsWs ·) with
              | '[' :: r7 =>
                let body := r7.takeWhile (fun x => !(x == ']'))
                match r7.drop body.length with
                | ']' :: _ => some body
                | _ => none
              | _ => none
            | _ => none
          else none
      else none
  else none

/-- `\.WORD\s*=\s*\[(.*?)\]` at the current position. -/
def dotArrayAt (word : List Char) (s : List Char) : Option (List Char) :=
  if isPre ('.' :: word) s then
    match (s.drop (word.length + 1)).dropWhile (jsWs ·) with
    | '=' :: r6 =>
      match r6.dropWhile (jsWs ·) with
      | '[' :: r7 =>
        let body := r7.takeWhile (fun x => !(x == ']'))
        match r7.drop body.length with
        | ']' :: _ => some body
        | _ => none
      | _ => none
    | _ => none
  else none

/-- `export\s+default\s+\x7b\s*[^\x7d]*KEY\s*\[(.*?)\]` at the current
position.  The greedy `[^\x7d]*` makes the regex engine settle on the
*rightmost* start of `KEY` inside the brace-free region. -/
def exportDefaultArrayAt (key : List Char) (s : List Char) : Option (List Char) :=
  if isPre ( "export").data s then
    let r1 := s.drop 6
    let ws1 := r1.takeWhile (jsWs ·)
    if ws1.isEmpty then none
    else
      let r2 := r1.drop ws1.length
      if isPre ( "default").data r2 then
        let r3 := r2.drop 7
        let ws2 := r3.takeWhile (jsWs ·)
        if ws2.isEmpty then none
        else
          match r3.drop ws2.length with
          | '\x7b' :: r4 =>
            let r5 := r4.dropWhile (jsWs ·)
            let seg := r5.takeWhile (fun x => !(x == '\x7d'))
            ((List.range (seg.length + 1)).filterMap
              (fun i => arrayLitAt key (r5.drop i))).getLast?
          | _ => none
      else none
  else none

/-- `name:\s*["'](\w+)["']` at the current position. -/
def nameCapAt (s : List Char) : Option (List Char) :=
  if isPre ( "name:").data s then
    match (s.drop 5).dropWhile (jsWs ·) with
    | q1 :: r2 =>
      if q1 == '\x27' || q1 == '"' then
        let w := r2.takeWhile (wordChar ·)
        if w.isEmpty then none
        else
          match r2.drop w.length with
          | q2 :: _ => if q2 == '\x27' || q2 == '"' then some w else none
          | _ => none
      else none
    | _ => none
  else none

/-- One attempted match of the inline-action regex
`/\x7b[^\x7d]*name:\s*["'](\w+)["'][^\x7d]*\x7d/` at the current position;
the greedy leading `[^\x7d]*` selects the rightmost `name:` capture inside
the brace region. -/
def inlineNameAt (s : List Char) : Option (List Char × List Char) :=
  match s with
  | '\x7b' :: r1 =>
    let seg := r1.takeWhile (fun x => !(x == '\x7d'))
    match r1.drop seg.length with
    | '\x7d' :: r2 =>
      match ((List.range (seg.length + 1)).filterMap
          (fun i => nameCapAt (seg.drop i))).getLast? with
      | some w => some (w, r2)
      | none => none
    | _ => none
  | _ => none

/-- All inline-action captures, in scan order. -/
def scanInlineNames : Nat → List Char → List String
  | 0, _ => []
  | _ + 1, [] => []
  | fuel + 1, c :: t =>
    match inlineNameAt (c :: t) with
    | some (w, rest) => ⟨w⟩ :: scanInlineNames fuel rest
    | none => scanInlineNames fuel t

/-- All `\b[a-zA-Z_]\w+\b` references: maximal `\w+` runs of length at
least two whose first character is a letter or underscore. -/
def wordRuns : Nat → List Char → List String
  | 0, _ => []
  | _ + 1, [] => []
  | fuel + 1, c :: t =>
    if wordChar c then
      let run := (c :: t).takeWhile (wordChar ·)
      let rest := (c :: t).drop run.length
      if 2 ≤ run.length ∧ wordStartChar c then ⟨run⟩ :: wordRuns fuel rest
      else wordRuns fuel rest
    else wordRuns fuel t

/-- The JavaScript-keyword filter of lines 412 / 538. -/
def jsKeywords : List String :=
  [( "const"), ( "let"), ( "var"), ( "function"), ( "class"), ( "import"),
   ( "export"), ( "new"), ( "return"), ( "if"), ( "else"), ( "for"),
   ( "while"), ( "do"), ( "break"), ( "continue")]

/-- Component names collected from one actions-array body
(lines 396-451): comment-free word references resolved through the alias
map with the `foundNames` set keyed on the raw reference, then inline
`name:` captures. -/
def componentsFromBody (imports : List (String × String)) (body : List Char) :
    List String :=
  let clean := removeComments body
  let refs := wordRuns clean.length clean
  let inline := scanInlineNames clean.length clean
  let step1 := refs.foldl
    (fun (st : List String × List String) ref =>
      if ref ∈ jsKeywords ∨ ref ∈ st.1 then st
      else
        let componentName := (List.lookup ref imports).getD ref
        (st.1 ++ [componentName], st.2 ++ [componentName]))
    ([], [])
  let step2 := inline.foldl
    (fun (st : List String × List String) nm =>
      if nm ∈ st.1 then st else (st.1 ++ [nm], st.2 ++ [nm]))
    step1
  step2.2

/-- The names recorded in `pluginInfo.actions` from the index file: the
four `actionPatterns` are tried in order (lines 362-367 and 391-458), and
the first one whose match has a non-empty group *and* yields a non-empty
component list wins. -/
def extractActionNames (indexContent : String) : List String :=
  let content := indexContent.data
  let imports := buildActionImports indexContent
  let n := content.length
  let bodies : List (Option (List Char)) :=
    [scanFirst (arrayLitAt ( "actions:").data) n content,
     scanFirst (exportConstArrayAt ( "actions").data) n content,
     scanFirst (dotArrayAt ( "actions").data) n content,
     scanFirst (exportDefaultArrayAt ( "actions:").data) n content]
  bodies.foldl
    (fun acc ob =>
      if acc.isEmpty then
        match ob with
        | some body => if body.isEmpty then acc else componentsFromBody imports body
        | none => acc
      else acc)
    []

/-! ## Local-mode persistence (`createPullRequest`, lines 1180-1206)

`path.join` is modelled as plain `/`-separated concatenation (its `..`
normalization is irrelevant here: the safety check and the write target are
the *same* `readmePath` string, so the refusal property is insensitive to
how that string was assembled).  The file system is a `pathExists`
predicate; a thrown error is an explicit outcome value.
-/

def joinPath (a b : String) : String := ⟨a.data ++ '/' :: b.data⟩

inductive LocalWriteResult where
  | wrote (path : String) (content : String)
  | errNotFound (path : String)
  | errCritical
deriving DecidableEq

/-- `currentDir.endsWith('plugins-automation')`. -/
def endsWithAutomation (cwd : String) : Bool :=
  isPre ( "plugins-automation").data.reverse cwd.data.reverse

/-- The `pluginPath` of lines 1184-1188. -/
def localPluginPath (cwd repoName : String) : String :=
  if endsWithAutomation cwd then joinPath (joinPath cwd ( "..")) repoName
  else joinPath cwd repoName

/-- The `readmePath` of line 1190. -/
def localReadmePath (cwd repoName : String) : String :=
  joinPath (localPluginPath cwd repoName) ( "README.md")

/-- The `LOCAL_MODE` branch of `createPullRequest` (lines 1181-1206):
existence check, then the hard safety check, then the write. -/
def createPullRequestLocal (cwd : String) (pathExists : String → Bool)
    (repoName readme : String) : LocalWriteResult :=
  let pluginPath := localPluginPath cwd repoName
  let readmePath := localReadmePath cwd repoName
  if !(pathExists pluginPath) then LocalWriteResult.errNotFound pluginPath
  else if occursB ( "plugins-automation/README.md").data readmePath.data then
    LocalWriteResult.errCritical
  else LocalWriteResult.wrote readmePath readme

/-! ## The per-repository driver (`processPlugin`, lines 1256-1316)

The effectful steps inside the `try` block are abstracted by an
environment record: `pathResult` is the outcome of `getPluginPath`
(`none` = it threw), `extractOk` the outcome of `extractPluginInfo`,
`generateResult` the outcome of `generateReadme` (`none` = it threw,
`some r` = it returned `r`), and `prOk` whether `createPullRequest`
succeeded.  The function returns `Except.error` exactly when an exception
escapes `processPlugin` to its caller, and otherwise the logged outcome
together with the list of `createPullRequest` invocations (repository
name and README text). -/
structure ProcessEnv where
  pathResult : Option String
  extractOk : Bool
  generateResult : Option String
  prOk : Bool
deriving DecidableEq

inductive ItemOutcome where
  | success (repoName : String)
  | loggedFailure (repoName : String)
deriving DecidableEq

/-- `repoNameOrUrl.startsWith('http://') || repoNameOrUrl.startsWith('https://')`. -/
def looksLikeUrl (s : String) : Bool :=
  isPre ( "http://").data s.data || isPre ( "https://").data s.data

/-- The URL's last `/`-segment (lines 1266-1267). -/
def urlLastPart (s : String) : List Char :=
  (splitChar '/' s.data).getLast?.getD []

/-- The repository name extracted before the `try` block
(lines 1263-1274): for a URL, the last path segment with a `.git` suffix
removed; otherwise the input itself. -/
def extractedRepoName (s : String) : String :=
  if looksLikeUrl s then ⟨replaceFirst ( ".git").data [] (urlLastPart s)⟩
  else s

/-- The body of the `try` block (lines 1276-1315): each failing step is
caught by the `catch`, logged with the repository name, and turns the item
into a logged failure; an empty or whitespace-only generated README is
thrown (line 1295-1297) *before* `createPullRequest` is invoked. -/
def processBody (env : ProcessEnv) (repoName : String) :
    ItemOutcome × List (String × String) :=
  match env.pathResult with
  | none => (ItemOutcome.loggedFailure repoName, [])
  | some _ =>
    if !env.extractOk then (ItemOutcome.loggedFailure repoName, [])
    else
      match env.generateResult with
      | none => (ItemOutcome.loggedFailure repoName, [])
      | some readme =>
        if readme.data.isEmpty || (jsTrim readme).data.isEmpty then
          (ItemOutcome.loggedFailure repoName, [])
        else if env.prOk then
          (ItemOutcome.success repoName, [(repoName, readme)])
        else (ItemOutcome.loggedFailure repoName, [(repoName, readme)])

/-- `processPlugin` (lines 1256-1316).  The repository-name extraction of
lines 1263-1274 runs *before* the `try` block: a URL whose last segment is
empty throws there, and that exception propagates to the caller
(`Except.error`).  Everything else is the caught `try` body. -/
def processPlugin (env : ProcessEnv) (repoNameOrUrl : String) :
    Except String (ItemOutcome × List (String × String)) :=
  if looksLikeUrl repoNameOrUrl then
    if (urlLastPart repoNameOrUrl).isEmpty then
      Except.error (strCat ( "Invalid URL format: ") repoNameOrUrl)
    else
      Except.ok (processBody env
        ⟨replaceFirst ( ".git").data [] (urlLastPart repoNameOrUrl)⟩)
  else Except.ok (processBody env repoNameOrUrl)

/-! ## npm download statistics (`npmDownloadStats.ts`)

`fetchVersionDownloads` (lines 179-207) is modelled over an oracle
`stats : String → Option Nat` giving a package's `last-month` download
count (`none` = the request threw, making the surrounding `try` skip that
package).  JavaScript's `Math.round(a / b)` on whole-number inputs is the
exact `jsRound`. -/
structure PackageInfo where
  name : String
  versions : List String
deriving DecidableEq

structure VersionDownloads where
  packageName : String
  version : String
  downloads : Nat
  downloadsPeriod : String
deriving DecidableEq

/-- The records produced for one package (lines 182-204). -/
def versionRecordsFor (stats : String → Option Nat) (pkg : PackageInfo) :
    List VersionDownloads :=
  match stats pkg.name with
  | none => []
  | some monthly =>
    let versions := sliceLastTen pkg.versions
    versions.map fun v =>
      { packageName := pkg.name, version := v,
        downloads := jsRound monthly versions.length,
        downloadsPeriod := ( "last-month") }

/-- `fetchVersionDownloads` (lines 179-207): the per-package record lists,
concatenated in package order. -/
def fetchVersionDownloads (stats : String → Option Nat)
    (packages : List PackageInfo) : List VersionDownloads :=
  packages.flatMap (versionRecordsFor stats)

/-! ## Concrete sample inputs used by the claim theorems -/

/-- Index file realizing the spec's alias scenario: it imports
`\x7b transferAction as sendToken \x7d` from `./actions` and lists
`sendToken` in its `actions` array. -/
def c4Index : String :=
  ( "import \x7b transferAction as sendToken \x7d from \x27./actions\x27;\n\nexport const myPlugin = \x7b\n  name: \x27test-plugin\x27,\n  actions: [sendToken],\n\x7d;\n")

/-- The same index file with a second `./actions` import that rebinds the
local name `sendToken`; the later `Map.set` overwrites the alias entry. -/
def c4CexIndex : String :=
  ( "import \x7b transferAction as sendToken \x7d from \x27./actions\x27;\nimport \x7b sendToken \x7d from \x27./actions\x27;\n\nexport const myPlugin = \x7b\n  actions: [sendToken],\n\x7d;\n")

/-- Source file of the spec's environment-scan example: `process.env.FOO`
twice and `runtime.getSetting("BAR")` once. -/
def c3SampleFile : String :=
  ( "const a = process.env.FOO;\nconst b = process.env.FOO;\nconst c = runtime.getSetting(\"BAR\");\n")

/-- A second scanned file, used to exhibit order-independence. -/
def c3SampleFileB : String :=
  ( "const d = process.env.ALPHA;\nconst e = getEnv(\x27FOO\x27);\n")

/-- A service source with a constructor, an underscore-private method and a
public method. -/
def c9SampleService : String :=
  ( "class CacheService \x7b\n  constructor() \x7b\n  \x7d\n  _prime(x: string) \x7b\n  \x7d\n  async fetchData(key: string): Promise<string> \x7b\n  \x7d\n\x7d\n")

/-- A plugin record whose fields are all empty except the package name. -/
def basePlugin (pkg : String) : PluginInfo :=
  { name := pkg, description := ( ""), packageName := pkg,
    actions := [], services := [], providers := [], events := [],
    evaluators := [], envVars := [], dependencies := [],
    repository := ( ""), hasTests := false }

/-- The counterexample plugin for the fallback-containment claim: its
package name is itself the last placeholder token, which the final
replacement pass of the chain eliminates wholesale. -/
def c2CexPlugin : PluginInfo := basePlugin phProvidersDetailed

/-- The spec's own example plugin for the fallback-containment claim. -/
def c2SamplePlugin : PluginInfo := basePlugin ( "@elizaos/plugin-x")

/-- The placeholder patterns substituted *after* the first
`\x7b\x7bPLUGIN_NAME\x7d\x7d` pass, in chain order. -/
def laterPlaceholders : List (List Char) :=
  [phPluginDescription.data, phPackageName.data, phRepositoryUrl.data,
   phEnvVars.data, phActionsList.data, phServicesList.data,
   phProvidersList.data, phActionsDetailed.data, phServicesDetailed.data,
   phProvidersDetailed.data]

/-- A four-version sample package for the download-estimate claim. -/
def c7Pkg : PackageInfo :=
  { name := ( "pkg-a"),
    versions := [( "1.0.0"), ( "1.1.0"), ( "1.2.0"), ( "2.0.0")] }

/-- A stats oracle: 40 monthly downloads for `pkg-a`, errors otherwise. -/
def c7Stats : String → Option Nat :=
  fun n => if n = ( "pkg-a") then some 40 else none

/-! ## Supporting lemmas

Bridge lemmas between the Boolean scanners and their relational
descriptions, and the structural theory of `replaceAll` chains used by
the claims about the README template substitution. -/

theorem isPre_iff (p s : List Char) : isPre p s = true ↔ p <+: s := by
  induction p generalizing s with
  | nil => simp [isPre, List.nil_prefix]
  | cons a as ih =>
    cases s with
    | nil => simp [isPre]
    | cons b bs =>
      simp only [isPre, Bool.and_eq_true, beq_iff_eq, ih, List.cons_prefix_cons]

theorem occursB_iff (p s : List Char) : occursB p s = true ↔ p <:+: s := by
  induction s with
  | nil => cases p <;> simp [occursB, List.isEmpty]
  | cons c s ih =>
    simp only [occursB, Bool.or_eq_true, isPre_iff, ih]
    constructor
    · rintro (h | h)
      · exact h.isInfix
      · exact h.trans (List.infix_cons (List.infix_refl s))
    · rintro ⟨t, u, h⟩
      cases t with
      | nil => exact Or.inl ⟨u, by simpa using h⟩
      | cons x xs =>
        refine Or.inr ⟨xs, u, ?_⟩
        simpa using congrArg List.tail h

theorem replaceAllGo_fuel (pat rep : List Char) :
    ∀ (n m : Nat) (s : List Char), s.length ≤ n → s.length ≤ m →
      replaceAllGo pat rep n s = replaceAllGo pat rep m s := by
  intro n
  induction n with
  | zero =>
    intro m s hn _
    have : s = [] := List.eq_nil_of_length_eq_zero (Nat.le_zero.mp hn)
    subst this
    cases m <;> rfl
  | succ n ih =>
    intro m s hn hm
    cases s with
    | nil => cases m <;> rfl
    | cons c t =>
      cases m with
      | zero => exact absurd hm (by simp)
      | succ m =>
        simp only [replaceAllGo]
        split
        · have hd : (List.drop (pat.length - 1) t).length ≤ t.length := by
            simp [Nat.sub_le]
          rw [ih m _ (le_trans hd (Nat.le_of_succ_le_succ hn))
            (le_trans hd (Nat.le_of_succ_le_succ hm))]
        · rw [ih m t (Nat.le_of_succ_le_succ hn) (Nat.le_of_succ_le_succ hm)]

theorem replaceAll_nil (pat rep : List Char) : replaceAll pat rep [] = [] := rfl

theorem replaceAll_cons (pat rep : List Char) (c : Char) (s : List Char) :
    replaceAll pat rep (c :: s) =
      if pat ≠ [] ∧ isPre pat (c :: s) then
        rep ++ replaceAll pat rep (List.drop (pat.length - 1) s)
      else
        c :: replaceAll pat rep s := by
  show replaceAllGo pat rep (s.length + 1) (c :: s) = _
  simp only [replaceAllGo]
  split
  · rw [replaceAllGo_fuel pat rep s.length _ _ (by simp [Nat.sub_le]) le_rfl]; rfl
  · rw [replaceAllGo_fuel pat rep s.length _ _ le_rfl le_rfl]; rfl

theorem replaceAll_nil_pat (rep : List Char) (s : List Char) :
    replaceAll [] rep s = s := by
  induction s with
  | nil => rfl
  | cons c t ih => rw [replaceAll_cons]; simp [ih]

/-! ## Structural lemmas about `replaceAll`

These support the claims about the template-substitution fallback: a scan
that starts before a marked region and never matches inside it copies the
region verbatim; a pattern occurrence makes the replacement text appear in
the output; and a region that cannot clash with the pattern survives a
whole replacement pass.
-/

theorem infixAppL {l r : List Char} (x : List Char) (h : l <:+: r) : l <:+: x ++ r := by
  obtain ⟨p, q, hpq⟩ := h
  exact ⟨x ++ p, q, by rw [← hpq]; simp⟩

/-- A scan never matching at any position inside `t` copies `t` verbatim. -/
theorem replaceAll_append_noMatch (pat rep : List Char) :
    ∀ (t u : List Char), (∀ i, i < t.length → isPre pat (List.drop i t ++ u) = false) →
      replaceAll pat rep (t ++ u) = t ++ replaceAll pat rep u := by
  intro t
  induction t with
  | nil => intro u _; simp
  | cons c t' ih =>
    intro u h
    have h0 : isPre pat (c :: (t' ++ u)) = false := by
      simpa using h 0 (by simp)
    rw [List.cons_append, replaceAll_cons, if_neg (by simp [h0]),
      ih u (fun i hi => by simpa using h (i + 1) (by simpa using hi))]
    rfl

/-- A pattern occurrence guarantees that the replacement text occurs in the
output of the pass. -/
theorem replaceAll_emits (pat rep : List Char) (hne : pat ≠ []) :
    ∀ s, pat <:+: s → rep <:+: replaceAll pat rep s := by
  intro s hin
  obtain ⟨X, Y, hXY⟩ := hin
  induction X generalizing s with
  | nil =>
    subst hXY
    simp only [List.nil_append]
    rcases pat with _ | ⟨p, pt⟩
    · exact absurd rfl hne
    rw [show (p :: pt) ++ Y = p :: (pt ++ Y) from rfl, replaceAll_cons,
      if_pos ⟨hne, (isPre_iff _ _).mpr ⟨Y, rfl⟩⟩]
    exact ⟨[], _, rfl⟩
  | cons c X' ih =>
    subst hXY
    rw [show (c :: X') ++ pat ++ Y = c :: (X' ++ pat ++ Y) by simp, replaceAll_cons]
    split
    · exact ⟨[], _, rfl⟩
    · exact List.infix_cons (ih (X' ++ pat ++ Y) rfl)

theorem noClash_notInside {v pat : List Char} (h : noClash v pat = true) :
    ¬ v <:+: pat := by
  simp only [noClash, Bool.and_eq_true, Bool.not_eq_true'] at h
  rw [← occursB_iff]
  simp [h.1.1]

theorem noClash_patTail {v pat : List Char} (h : noClash v pat = true) :
    ∀ Z, Z <:+ pat → Z ≠ [] → ¬ Z <+: v := by
  intro Z hZ hZne
  simp only [noClash, Bool.and_eq_true, List.all_eq_true] at h
  have := h.1.2 Z ((List.mem_tails Z pat).mpr hZ)
  rw [Bool.or_eq_true, List.isEmpty_iff, Bool.not_eq_true'] at this
  rcases this with h1 | h1
  · exact absurd h1 hZne
  · rw [← isPre_iff]
    simp [h1]

theorem noClash_vTail {v pat : List Char} (h : noClash v pat = true) :
    ∀ Z, Z <:+ v → Z ≠ [] → Z ≠ v → ¬ Z <+: pat ∧ ¬ pat <+: Z := by
  intro Z hZ hZne hZv
  simp only [noClash, Bool.and_eq_true, List.all_eq_true] at h
  have := h.2 Z ((List.mem_tails Z v).mpr hZ)
  rw [Bool.or_eq_true, Bool.or_eq_true, List.isEmpty_iff, beq_iff_eq,
    Bool.and_eq_true, Bool.not_eq_true', Bool.not_eq_true'] at this
  rcases this with (h1 | h1) | ⟨h1, h2⟩
  · exact absurd h1 hZne
  · exact absurd h1 hZv
  · constructor
    · rw [← isPre_iff]; simp [h1]
    · rw [← isPre_iff]; simp [h2]

/-- A region containing neither brace character cannot clash with a
`{{…}}`-shaped placeholder pattern it does not fragment. -/
theorem noClash_of_braces {v pat : List Char}
    (hbl : ('\x7b' : Char) ∉ v) (hbr : ('\x7d' : Char) ∉ v)
    (hh : pat.head? = some '\x7b') (hl : pat.getLast? = some '\x7d')
    (hni : occursB v pat = false) : noClash v pat = true := by
  have hmemLast : ∀ Z : List Char, Z <:+ pat → Z ≠ [] → ('\x7d' : Char) ∈ Z := by
    rintro Z ⟨u, rfl⟩ hZne
    have := @List.getLast?_append Char u Z
    rw [hl] at this
    rcases hZl : Z.getLast? with _ | x
    · rcases Z with _ | ⟨z, zt⟩
      · exact absurd rfl hZne
      · rw [List.getLast?_eq_getLast _ (by simp)] at hZl
        cases hZl
    · rw [hZl] at this
      simp only [Option.or_some] at this
      cases this
      exact List.mem_of_mem_getLast? hZl
  have hmemHeadOf : ∀ Z : List Char, Z <+: pat → Z ≠ [] → ('\x7b' : Char) ∈ Z := by
    rintro Z ⟨w, rfl⟩ hZne
    rcases Z with _ | ⟨z, zt⟩
    · exact absurd rfl hZne
    · simp only [List.cons_append, List.head?_cons, Option.some.injEq] at hh
      rw [hh]
      exact List.mem_cons_self _ _
  have hpatne : pat ≠ [] := by
    intro h
    rw [h] at hh
    cases hh
  simp only [noClash, Bool.and_eq_true, Bool.not_eq_true', List.all_eq_true]
  refine ⟨⟨hni, ?_⟩, ?_⟩
  · intro z hz
    rw [List.mem_tails] at hz
    rw [Bool.or_eq_true, List.isEmpty_iff, Bool.not_eq_true']
    rcases eq_or_ne z [] with hznil | hzne
    · exact Or.inl hznil
    · refine Or.inr ?_
      by_contra hcon
      rw [Bool.not_eq_false, isPre_iff] at hcon
      exact hbr (hcon.subset (hmemLast z hz hzne))
  · intro z hz
    rw [List.mem_tails] at hz
    rw [Bool.or_eq_true, Bool.or_eq_true, List.isEmpty_iff, beq_iff_eq,
      Bool.and_eq_true, Bool.not_eq_true', Bool.not_eq_true']
    rcases eq_or_ne z [] with hznil | hzne
    · exact Or.inl (Or.inl hznil)
    rcases eq_or_ne z v with hzv | hzv
    · exact Or.inl (Or.inr hzv)
    refine Or.inr ⟨?_, ?_⟩
    · by_contra hcon
      rw [Bool.not_eq_false, isPre_iff] at hcon
      exact hbl (hz.subset (hmemHeadOf z hcon hzne))
    · by_contra hcon
      rw [Bool.not_eq_false, isPre_iff] at hcon
      have : ('\x7b' : Char) ∈ z := hcon.subset (hmemHeadOf pat ⟨[], by simp⟩ hpatne)
      exact hbl (hz.subset this)

/-- An occurrence of an overlap-free region `v` survives a whole
`replaceAll` pass. -/
theorem replaceAll_keeps (pat rep v : List Char) (hcl : noClash v pat = true) :
    ∀ s, v <:+: s → v <:+: replaceAll pat rep s := by
  by_cases hv : v = []
  · subst hv
    intro s _
    exact ⟨[], replaceAll pat rep s, rfl⟩
  by_cases hp : pat = []
  · subst hp
    intro s h
    rw [replaceAll_nil_pat]
    exact h
  suffices H : ∀ n s, s.length ≤ n → v <:+: s → v <:+: replaceAll pat rep s by
    exact fun s => H s.length s le_rfl
  intro n
  induction n with
  | zero =>
    intro s hl hin
    rw [List.eq_nil_of_length_eq_zero (Nat.le_zero.mp hl)] at hin ⊢
    exact hin
  | succ n ih =>
    intro s hl hin
    obtain ⟨X, Y, hXY⟩ := hin
    subst hXY
    rcases X with _ | ⟨c, X'⟩
    · -- the occurrence of `v` starts at the head of the text
      simp only [List.nil_append] at hl ⊢
      rcases hvc : v with _ | ⟨vc, vt⟩
      · exact absurd hvc hv
      subst hvc
      rw [show (vc :: vt) ++ Y = vc :: (vt ++ Y) from rfl, replaceAll_cons]
      split_ifs with hcond
      · -- a head match would overlap `v`: impossible
        exfalso
        obtain ⟨T, hT⟩ := (isPre_iff pat (vc :: (vt ++ Y))).mp hcond.2
        have hT2 : pat ++ T = (vc :: vt) ++ Y := hT
        rcases List.append_eq_append_iff.mp hT2 with ⟨a, hva, _⟩ | ⟨b, hpb, _⟩
        · exact noClash_patTail hcl pat (List.suffix_refl pat) hp ⟨a, hva.symm⟩
        · exact noClash_notInside hcl ⟨[], b, by rw [hpb]; simp⟩
      · -- no match at the head: the scan copies `v` verbatim
        have hscan : ∀ i, i < (vc :: vt).length →
            isPre pat (List.drop i (vc :: vt) ++ Y) = false := by
          intro i hi
          rcases Nat.eq_zero_or_pos i with hi0 | hipos
          · subst hi0
            simp only [List.drop_zero]
            by_contra hcon
            rw [Bool.not_eq_false] at hcon
            exact hcond ⟨hp, hcon⟩
          · by_contra hcon
            rw [Bool.not_eq_false, isPre_iff] at hcon
            obtain ⟨W, hW⟩ := hcon
            have hZsuf : List.drop i (vc :: vt) <:+ (vc :: vt) := List.drop_suffix i _
            have hZne : List.drop i (vc :: vt) ≠ [] := by
              intro hnil
              rw [List.drop_eq_nil_iff] at hnil
              simp only [List.length_cons] at hi hnil
              omega
            have hZv : List.drop i (vc :: vt) ≠ vc :: vt := by
              intro heq
              have := congrArg List.length heq
              simp only [List.length_drop, List.length_cons] at this
              omega
            rcases List.append_eq_append_iff.mp hW.symm with ⟨a, hZa, _⟩ | ⟨b, hpb, _⟩
            · exact (noClash_vTail hcl _ hZsuf hZne hZv).1 ⟨a, hZa.symm⟩
            · exact (noClash_vTail hcl _ hZsuf hZne hZv).2 ⟨b, hpb.symm⟩
        have hcopy := replaceAll_append_noMatch pat rep (vc :: vt) Y hscan
        have hstep : vc :: replaceAll pat rep (vt ++ Y) =
            replaceAll pat rep (vc :: (vt ++ Y)) := by
          rw [replaceAll_cons, if_neg hcond]
        rw [hstep, show vc :: (vt ++ Y) = (vc :: vt) ++ Y from rfl, hcopy]
        exact ⟨[], replaceAll pat rep Y, rfl⟩
    · -- the occurrence of `v` starts strictly after the head
      rw [show (c :: X') ++ v ++ Y = c :: (X' ++ v ++ Y) by simp, replaceAll_cons]
      split_ifs with hcond
      · -- the scan matches at the head
        obtain ⟨T, hT⟩ := (isPre_iff pat (c :: (X' ++ v ++ Y))).mp hcond.2
        have hTs : pat ++ T = (c :: X') ++ (v ++ Y) := by rw [hT]; simp
        have hTdrop : List.drop (pat.length - 1) (X' ++ v ++ Y) = T := by
          have h1 : List.drop pat.length (pat ++ T) = T := List.drop_left pat T
          rcases pat with _ | ⟨p, pt⟩
          · exact absurd rfl hp
          · rw [← h1, hT]
            simp
        have hTlen : T.length ≤ n := by
          have hlen2 := congrArg List.length hT
          rcases pat with _ | ⟨p, pt⟩
          · exact absurd rfl hp
          · simp only [List.length_append, List.length_cons] at hlen2 hl ⊢
            omega
        rw [hTdrop]
        rcases List.append_eq_append_iff.mp hTs with ⟨a, hXa, hTa⟩ | ⟨Z, hpatZ, hvY⟩
        · -- the match lies entirely before the occurrence of `v`
          refine infixAppL rep (ih T hTlen ?_)
          rw [hTa]
          exact ⟨a, Y, by simp⟩
        · by_cases hZnil : Z = []
          · -- the match ends exactly where the occurrence of `v` begins
            subst hZnil
            simp only [List.nil_append] at hvY
            refine infixAppL rep (ih T hTlen ?_)
            rw [← hvY]
            exact ⟨[], Y, by simp⟩
          · -- the match would have to overlap `v`: impossible
            exfalso
            have hZsuf : Z <:+ pat := ⟨c :: X', hpatZ.symm⟩
            rcases List.append_eq_append_iff.mp hvY with ⟨a, hZa, _⟩ | ⟨b, hvb, _⟩
            · -- then `v` would sit inside `pat`
              exact noClash_notInside hcl ⟨c :: X', a, by rw [hpatZ, hZa]; simp⟩
            · -- then the tail segment `Z` of `pat` would start `v`
              exact noClash_patTail hcl Z hZsuf hZnil ⟨b, hvb.symm⟩
      · -- no match at the head: recurse on the tail
        exact List.infix_cons (ih (X' ++ v ++ Y)
          (by simp only [List.length_cons, List.length_append] at hl ⊢; omega)
          ⟨X', Y, rfl⟩)

/-- Overlap-free regions survive a whole chain of replacement passes. -/
theorem applyChain_keeps (subs : List (List Char × List Char)) (v : List Char)
    (h : ∀ pr ∈ subs, noClash v pr.1 = true) :
    ∀ s, v <:+: s → v <:+: applyChain subs s := by
  induction subs with
  | nil => exact fun s hs => hs
  | cons pr subs' ih =>
    intro s hs
    simp only [applyChain, List.foldl_cons]
    exact ih (fun q hq => h q (List.mem_cons_of_mem pr hq)) _
      (replaceAll_keeps pr.1 pr.2 v (h pr (List.mem_cons_self _ _)) s hs)

/-- If the pattern of one link of a substitution chain occurs in the input,
survives the earlier links, and its replacement text survives the later
links, then the replacement text occurs in the chain's output. -/
theorem applyChain_intro (pre post : List (List Char × List Char))
    (pat v : List Char) (hpne : pat ≠ [])
    (hpre : ∀ pr ∈ pre, noClash pat pr.1 = true)
    (hpost : ∀ pr ∈ post, noClash v pr.1 = true)
    (s : List Char) (hin : pat <:+: s) :
    v <:+: applyChain (pre ++ (pat, v) :: post) s := by
  simp only [applyChain, List.foldl_append, List.foldl_cons]
  exact applyChain_keeps post v hpost _
    (replaceAll_emits pat v hpne _ (applyChain_keeps pre pat hpre s hin))

theorem strDataEq {a b : String} (h : a.data = b.data) : a = b := by
  cases a; cases b; exact congrArg String.mk h

/-- A string-pattern `replace` with no occurrence of the pattern is the
identity. -/
theorem replaceFirst_no_occurrence (pat rep : List Char) (hne : pat ≠ []) :
    ∀ s, ¬ pat <:+: s → replaceFirst pat rep s = s := by
  intro s h
  induction s with
  | nil =>
    simp only [replaceFirst, List.isEmpty_iff]
    rw [if_neg hne]
  | cons c t ih =>
    have h0 : ¬ (pat ≠ [] ∧ isPre pat (c :: t) = true) := by
      rintro ⟨-, hpre⟩
      exact h ((isPre_iff _ _).mp hpre).isInfix
    have h1 : ¬ pat.isEmpty = true := by
      simp [List.isEmpty_iff, hne]
    simp only [replaceFirst]
    rw [if_neg h0, if_neg h1, ih (fun hin => h (List.infix_cons hin))]

/-- The last character of a list is in every non-empty tail segment. -/
theorem lastCharMem {pat Z : List Char} {x : Char} (hl : pat.getLast? = some x)
    (hZ : Z <:+ pat) (hne : Z ≠ []) : x ∈ Z := by
  obtain ⟨u, rfl⟩ := hZ
  have := @List.getLast?_append Char u Z
  rw [hl] at this
  rcases hZl : Z.getLast? with _ | y
  · rcases Z with _ | ⟨z, zt⟩
    · exact absurd rfl hne
    · rw [List.getLast?_eq_getLast _ (by simp)] at hZl
      cases hZl
  · rw [hZl] at this
    simp only [Option.or_some] at this
    cases this
    exact List.mem_of_mem_getLast? hZl

/-- The first character of a list is in every non-empty leading segment. -/
theorem headCharMem {pat Z : List Char} {x : Char} (hh : pat.head? = some x)
    (hZ : Z <+: pat) (hne : Z ≠ []) : x ∈ Z := by
  obtain ⟨w, rfl⟩ := hZ
  rcases Z with _ | ⟨z, zt⟩
  · exact absurd rfl hne
  · simp only [List.cons_append, List.head?_cons, Option.some.injEq] at hh
    rw [hh]
    exact List.mem_cons_self _ _

/-- A non-empty tail segment of `pat` that starts the *output* of a
`replaceAll pat rep` pass also starts the pass's input: with a brace-free
replacement, copied text is the only place such a segment can begin. -/
theorem replaceAll_out_tailSeg (pat rep : List Char)
    (hbr : ('\x7d' : Char) ∉ rep) (hl : pat.getLast? = some '\x7d')
    (hrp : ¬ rep <:+: pat) :
    ∀ s Q, Q <:+ pat → Q ≠ [] → Q <+: replaceAll pat rep s → Q <+: s := by
  suffices H : ∀ n s, s.length ≤ n → ∀ Q, Q <:+ pat → Q ≠ [] →
      Q <+: replaceAll pat rep s → Q <+: s by
    exact fun s => H s.length s le_rfl
  intro n
  induction n with
  | zero =>
    intro s hlen Q _ _ hQ
    rw [List.eq_nil_of_length_eq_zero (Nat.le_zero.mp hlen)] at hQ ⊢
    exact hQ
  | succ n ih =>
    intro s hlen Q hQp hQne hQ
    rcases s with _ | ⟨c, s'⟩
    · exact hQ
    rw [replaceAll_cons] at hQ
    split_ifs at hQ with hcond
    · -- the pass replaced at the head: the segment cannot start here
      exfalso
      obtain ⟨W, hW⟩ := hQ
      rcases List.append_eq_append_iff.mp hW with ⟨a, hra, _⟩ | ⟨d, hQd, hOUT⟩
      · -- the segment would lie inside `rep`, forcing a `\x7d` into `rep`
        exact hbr (hra ▸ List.mem_append_left a (lastCharMem hl hQp hQne))
      · rcases eq_or_ne d [] with hd | hd
        · subst hd
          simp only [List.append_nil] at hQd
          exact hrp (by rw [hQd] at hQp; exact hQp.isInfix)
        · have hdp : d <:+ pat := by
            obtain ⟨u, hu⟩ := hQp
            exact ⟨u ++ rep, by rw [← hu, hQd]; simp⟩
          have hrep : rep <:+: pat := by
            obtain ⟨u, hu⟩ := hQp
            exact ⟨u, d, by rw [← hu, hQd]; simp⟩
          exact hrp hrep
    · -- copied head character
      rcases hQc : Q with _ | ⟨q, Q'⟩
      · exact absurd hQc hQne
      subst hQc
      obtain ⟨W, hW⟩ := hQ
      simp only [List.cons_append, List.cons.injEq] at hW
      rcases eq_or_ne Q' [] with hQ' | hQ'
      · subst hQ'
        exact ⟨s', by rw [hW.1]; rfl⟩
      · have hQ'p : Q' <:+ pat := by
          obtain ⟨u, hu⟩ := hQp
          exact ⟨u ++ [q], by rw [← hu]; simp⟩
        obtain ⟨V, hV⟩ := ih s' (Nat.le_of_succ_le_succ hlen) Q' hQ'p hQ' ⟨W, hW.2⟩
        exact ⟨V, by rw [hW.1, ← hV]; rfl⟩

/-- A `replaceAll` pass with a `\x7b\x7b…\x7d\x7d`-shaped pattern and a
brace-free replacement that neither contains nor is contained in the
pattern leaves *no* occurrence of the pattern in its output: every
occurrence in copied text would have been matched, and the replacement
text cannot recreate one across a boundary. -/
theorem replaceAll_clears (pat rep : List Char) (hp : pat ≠ [])
    (hbl : ('\x7b' : Char) ∉ rep) (hbr : ('\x7d' : Char) ∉ rep)
    (hh : pat.head? = some '\x7b') (hl : pat.getLast? = some '\x7d')
    (hpr : ¬ pat <:+: rep) (hrp : ¬ rep <:+: pat) :
    ∀ s, ¬ pat <:+: replaceAll pat rep s := by
  suffices H : ∀ n s, s.length ≤ n → ¬ pat <:+: replaceAll pat rep s by
    exact fun s => H s.length s le_rfl
  intro n
  induction n with
  | zero =>
    intro s hlen hocc
    rw [List.eq_nil_of_length_eq_zero (Nat.le_zero.mp hlen)] at hocc
    exact hp (List.eq_nil_of_infix_nil hocc)
  | succ n ih =>
    intro s hlen hocc
    rcases s with _ | ⟨c, s'⟩
    · exact hp (List.eq_nil_of_infix_nil hocc)
    rw [replaceAll_cons] at hocc
    split_ifs at hocc with hcond
    · -- replacement at the head
      have hdlen : (List.drop (pat.length - 1) s').length ≤ n := by
        simp only [List.length_cons] at hlen
        simp only [List.length_drop]
        omega
      obtain ⟨X, Y, hXY⟩ := hocc
      rcases List.append_eq_append_iff.mp (by simpa using hXY) with
        ⟨a, hra, haY⟩ | ⟨z, _, hOUT⟩
      · rcases eq_or_ne a [] with ha | ha
        · subst ha
          simp only [List.append_nil] at hra haY
          exact ih _ hdlen ⟨[], Y, by simpa using haY⟩
        · rcases List.append_eq_append_iff.mp haY with ⟨b, hab, _⟩ | ⟨d, hpd, _⟩
          · exact hpr ⟨X, b, by rw [hra, hab]; simp⟩
          · have hamem : ('\x7b' : Char) ∈ a :=
              headCharMem hh ⟨d, hpd.symm⟩ ha
            exact hbl (by rw [hra]; exact List.mem_append_right X hamem)
      · exact ih _ hdlen ⟨z, Y, by rw [hOUT]; simp⟩
    · -- copied head character
      obtain ⟨X, Y, hXY⟩ := hocc
      rcases X with _ | ⟨x, X'⟩
      · -- the occurrence would start at a copied position
        simp only [List.nil_append] at hXY
        obtain ⟨p, patT, rfl⟩ : ∃ p patT, pat = p :: patT := by
          rcases pat with _ | ⟨p, patT⟩
          · exact absurd rfl hp
          · exact ⟨p, patT, rfl⟩
        have hpc1 : p = c ∧ patT ++ Y = replaceAll (p :: patT) rep s' := by
          simpa using hXY
        rcases eq_or_ne patT [] with hT | hT
        · refine hcond ⟨hp, (isPre_iff _ _).mpr ?_⟩
          rw [hT, hpc1.1]
          exact ⟨s', rfl⟩
        · have hpre : patT <+: s' :=
            replaceAll_out_tailSeg (p :: patT) rep hbr hl hrp s' patT
              ⟨[p], rfl⟩ hT ⟨Y, hpc1.2⟩
          refine hcond ⟨hp, (isPre_iff _ _).mpr ?_⟩
          obtain ⟨V, hV⟩ := hpre
          exact ⟨V, by rw [hpc1.1, List.cons_append, hV]⟩
      · -- the occurrence would lie in the processed tail
        exact ih s' (Nat.le_of_succ_le_succ hlen) ⟨X', Y, (by simpa using hXY : _ ∧ _).2⟩

theorem insertVar_nodup (acc : List String) (v : String) (h : acc.Nodup) :
    (insertVar acc v).Nodup := by
  rw [insertVar]
  split_ifs with hv
  · exact h
  · simp [List.nodup_append, h, hv]

theorem mem_insertVar (x : String) (acc : List String) (v : String) :
    x ∈ insertVar acc v ↔ x ∈ acc ∨ x = v := by
  rw [insertVar]
  split_ifs with hv
  · constructor
    · exact Or.inl
    · rintro (h | rfl)
      · exact h
      · exact hv
  · simp

theorem foldl_insertVar_nodup (l : List String) :
    ∀ acc : List String, acc.Nodup → (l.foldl insertVar acc).Nodup := by
  induction l with
  | nil => exact fun acc h => h
  | cons x t ih => exact fun acc h => ih (insertVar acc x) (insertVar_nodup acc x h)

theorem mem_foldl_insertVar (x : String) (l : List String) :
    ∀ acc : List String, x ∈ l.foldl insertVar acc ↔ x ∈ acc ∨ x ∈ l := by
  induction l with
  | nil => simp
  | cons y t ih =>
    intro acc
    rw [List.foldl_cons, ih (insertVar acc y), mem_insertVar]
    constructor
    · rintro ((h | rfl) | h)
      · exact Or.inl h
      · exact Or.inr (List.mem_cons_self _ _)
      · exact Or.inr (List.mem_cons_of_mem y h)
    · rintro (h | h)
      · exact Or.inl (Or.inl h)
      · rcases List.mem_cons.mp h with rfl | h
        · exact Or.inl (Or.inr rfl)
        · exact Or.inr h

theorem collectEnvVars_nodup (files : List String) : (collectEnvVars files).Nodup := by
  rw [collectEnvVars]
  suffices H : ∀ acc : List String, acc.Nodup →
      (files.foldl (fun acc f => (envCaptures f).foldl insertVar acc) acc).Nodup by
    exact H [] List.nodup_nil
  induction files with
  | nil => exact fun acc h => h
  | cons f t ih =>
    exact fun acc h => ih _ (foldl_insertVar_nodup (envCaptures f) acc h)

theorem mem_collectEnvVars (x : String) (files : List String) :
    x ∈ collectEnvVars files ↔ ∃ f ∈ files, x ∈ envCaptures f := by
  rw [collectEnvVars]
  suffices H : ∀ acc : List String,
      x ∈ files.foldl (fun acc f => (envCaptures f).foldl insertVar acc) acc ↔
        x ∈ acc ∨ ∃ f ∈ files, x ∈ envCaptures f by
    simpa using H []
  induction files with
  | nil => simp
  | cons f t ih =>
    intro acc
    rw [List.foldl_cons, ih, mem_foldl_insertVar]
    constructor
    · rintro ((h | h) | ⟨g, hg, hx⟩)
      · exact Or.inl h
      · exact Or.inr ⟨f, List.mem_cons_self _ _, h⟩
      · exact Or.inr ⟨g, List.mem_cons_of_mem f hg, hx⟩
    · rintro (h | ⟨g, hg, hx⟩)
      · exact Or.inl (Or.inl h)
      · rcases List.mem_cons.mp hg with rfl | hg
        · exact Or.inl (Or.inr hx)
        · exact Or.inr ⟨g, hg, hx⟩

/-- Every branch of the `try` body logs its outcome under the given
repository name. -/
theorem processBody_outcome (env : ProcessEnv) (r : String) :
    (processBody env r).1 = ItemOutcome.success r ∨
      (processBody env r).1 = ItemOutcome.loggedFailure r := by
  rw [processBody]
  rcases env.pathResult with _ | p
  · exact Or.inr rfl
  dsimp only
  rcases env.generateResult with _ | rm <;> dsimp only
  · split_ifs <;> exact Or.inr rfl
  · split_ifs <;> first | exact Or.inl rfl | exact Or.inr rfl

/-- The `try` body never hands an empty or whitespace-only README to
`createPullRequest`, and an empty generation outcome is a logged failure
with no persistence call. -/
theorem processBody_calls (env : ProcessEnv) (r : String) :
    (∀ call ∈ (processBody env r).2, (jsTrim call.2).data ≠ []) ∧
    (∀ rd, env.generateResult = some rd → (jsTrim rd).data = [] →
      (processBody env r).1 = ItemOutcome.loggedFailure r ∧
        (processBody env r).2 = []) := by
  rw [processBody]
  rcases env.pathResult with _ | p
  · exact ⟨by simp, fun rd _ _ => ⟨rfl, rfl⟩⟩
  dsimp only
  rcases env.generateResult with _ | rm <;> dsimp only
  · split_ifs <;> exact ⟨by simp, fun rd h => by cases h⟩
  · split_ifs with h1 h2 h3
    · exact ⟨by simp, fun rd _ _ => ⟨rfl, rfl⟩⟩
    · exact ⟨by simp, fun rd h _ => ⟨rfl, rfl⟩⟩
    · rw [Bool.or_eq_true, List.isEmpty_iff, List.isEmpty_iff] at h2
      push_neg at h2
      refine ⟨?_, ?_⟩
      · intro call hcall
        rw [List.mem_singleton] at hcall
        subst hcall
        exact h2.2
      · intro rd h htrim
        cases h
        exact absurd htrim h2.2
    · rw [Bool.or_eq_true, List.isEmpty_iff, List.isEmpty_iff] at h2
      push_neg at h2
      refine ⟨?_, ?_⟩
      · intro call hcall
        rw [List.mem_singleton] at hcall
        subst hcall
        exact h2.2
      · intro rd h htrim
        cases h
        exact absurd htrim h2.2

/-! ## The claims -/

/-- Claim C1 (amended): for every repository item that is not a URL with an
empty final path segment, every failure arising while processing the item
is caught inside `processPlugin` — no exception reaches `main`'s loop —
and the outcome is logged under the extracted repository name.  (As
stated, the claim fails: the repository-name extraction of lines
1263-1274 runs *before* the `try` block, and a URL whose last `/`-segment
is empty throws there and propagates to the caller.) -/
theorem c1_per_item_failures_caught (env : ProcessEnv) (s : String)
    (h : ¬ (looksLikeUrl s = true ∧ (urlLastPart s).isEmpty = true)) :
    processPlugin env s = Except.ok (processBody env (extractedRepoName s)) ∧
    ((processBody env (extractedRepoName s)).1 =
        ItemOutcome.success (extractedRepoName s) ∨
      (processBody env (extractedRepoName s)).1 =
        ItemOutcome.loggedFailure (extractedRepoName s)) := by
  refine ⟨?_, processBody_outcome env (extractedRepoName s)⟩
  rw [processPlugin, extractedRepoName]
  by_cases hurl : looksLikeUrl s = true
  · have hlast : ¬ (urlLastPart s).isEmpty = true := fun he => h ⟨hurl, he⟩
    rw [if_pos hurl, if_pos hurl, if_neg hlast]
  · rw [if_neg hurl, if_neg hurl]

theorem c1_per_item_failures_caught_witness :
    processPlugin (ProcessEnv.mk none true none false) ( "plugin-x") =
      Except.ok (processBody (ProcessEnv.mk none true none false)
        (extractedRepoName ( "plugin-x"))) ∧
    ((processBody (ProcessEnv.mk none true none false)
        (extractedRepoName ( "plugin-x"))).1 =
        ItemOutcome.success (extractedRepoName ( "plugin-x")) ∨
      (processBody (ProcessEnv.mk none true none false)
        (extractedRepoName ( "plugin-x"))).1 =
        ItemOutcome.loggedFailure (extractedRepoName ( "plugin-x"))) :=
  c1_per_item_failures_caught (ProcessEnv.mk none true none false)
    ( "plugin-x") (by decide)

/-- Claim C1, counterexample to the claim as stated: on a repository URL
whose final path segment is empty, `processPlugin` throws during the
repository-name extraction (before its `try` block) and the exception
escapes to the caller, even though every per-step outcome in the
environment is benign. -/
theorem c1_url_parse_cex :
    processPlugin (ProcessEnv.mk (some ( "/tmp/plugin-x")) true (some ( "# R")) true)
      ( "https://github.com/elizaos-plugins/plugin-x/") =
    Except.error
      ( "Invalid URL format: https://github.com/elizaos-plugins/plugin-x/") := by
  rfl

/-- Claim C5: a chat-completion response whose content trims to fewer than
500 characters — including an absent or empty content — is never returned:
`generateReadmeWithAI` answers with the template-substitution fallback
instead. -/
theorem c5_short_response_rejected (pi : PluginInfo) (template : String)
    (ex : Option String) (content : Option String)
    (h : (jsTrim (content.getD ( ""))).data.length < 500) :
    generateReadmeWithAI pi template ex (some content) =
      generateReadmeFromTemplate pi template := by
  show (if (content.getD ( "")).data.isEmpty ∨
      (jsTrim (content.getD ( ""))).data.length < 500 then
        generateReadmeFromTemplate pi template
      else jsTrim (content.getD ( ""))) =
    generateReadmeFromTemplate pi template
  rw [if_pos (Or.inr h)]

theorem c5_short_response_rejected_witness :
    generateReadmeWithAI c2SamplePlugin readmeTemplateText none
        (some (some ( "short reply"))) =
      generateReadmeFromTemplate c2SamplePlugin readmeTemplateText :=
  c5_short_response_rejected c2SamplePlugin readmeTemplateText none
    (some ( "short reply")) (by decide)

/-- Claim C6: in local mode, whenever the resolved README destination
carries the automation repository's own `plugins-automation/README.md`
path, `createPullRequest` refuses with a thrown error — either the
missing-directory error or the hard safety check, both raised before any
write — so the automation repository's README is never overwritten. -/
theorem c6_no_write_on_automation_path (cwd : String)
    (pathExists : String → Bool) (repoName readme : String)
    (h : occursB ( "plugins-automation/README.md").data
      (localReadmePath cwd repoName).data = true) :
    ∀ p c, createPullRequestLocal cwd pathExists repoName readme ≠
      LocalWriteResult.wrote p c := by
  intro p c
  rw [createPullRequestLocal]
  dsimp only
  split_ifs with h1
  · intro hcon; cases hcon
  · intro hcon; cases hcon

theorem c6_no_write_on_automation_path_witness :
    createPullRequestLocal ( "/home/dev/plugins-automation")
      (fun _ => true) ( "plugins-automation") ( "# README") ≠
      LocalWriteResult.wrote
        (localReadmePath ( "/home/dev/plugins-automation") ( "plugins-automation"))
        ( "# README") :=
  c6_no_write_on_automation_path ( "/home/dev/plugins-automation")
    (fun _ => true) ( "plugins-automation") ( "# README") (by decide)
    (localReadmePath ( "/home/dev/plugins-automation") ( "plugins-automation"))
    ( "# README")

/-- Claim C7: for every package with at least one version whose
`last-month` request succeeds, every emitted `VersionDownloads` record for
that package carries the same value — the monthly total divided evenly
over the selected recent versions (the last ten at most), rounded half up
— and the selected count is `min (number of versions) 10`. -/
theorem c7_even_split_estimate (stats : String → Option Nat)
    (packages : List PackageInfo) (pkg : PackageInfo) (m : Nat)
    (hmem : pkg ∈ packages)
    (huniq : ∀ q ∈ packages, q.name = pkg.name → q = pkg)
    (hstats : stats pkg.name = some m)
    (hver : pkg.versions ≠ []) :
    (∀ r ∈ fetchVersionDownloads stats packages, r.packageName = pkg.name →
      r.downloads = jsRound m (min pkg.versions.length 10)) ∧
    (sliceLastTen pkg.versions).length = min pkg.versions.length 10 := by
  have hlen : (sliceLastTen pkg.versions).length = min pkg.versions.length 10 := by
    rw [sliceLastTen, List.length_drop]
    omega
  refine ⟨?_, hlen⟩
  intro r hr hname
  rw [fetchVersionDownloads, List.mem_flatMap] at hr
  obtain ⟨q, hq, hrq⟩ := hr
  rw [versionRecordsFor] at hrq
  rcases hsq : stats q.name with _ | mq
  · rw [hsq] at hrq
    cases hrq
  · rw [hsq] at hrq
    rw [List.mem_map] at hrq
    obtain ⟨v, _, hveq⟩ := hrq
    subst hveq
    dsimp only at hname ⊢
    have hqpkg : q = pkg := huniq q hq hname
    subst hqpkg
    rw [hstats] at hsq
    cases hsq
    rw [hlen]

theorem c7_even_split_estimate_witness :
    (∀ r ∈ fetchVersionDownloads c7Stats [c7Pkg], r.packageName = c7Pkg.name →
      r.downloads = jsRound 40 (min c7Pkg.versions.length 10)) ∧
    (sliceLastTen c7Pkg.versions).length = min c7Pkg.versions.length 10 :=
  c7_even_split_estimate c7Stats [c7Pkg] c7Pkg 40
    (List.mem_singleton.mpr rfl)
    (fun q hq _ => List.mem_singleton.mp hq)
    (by decide) (by decide)

/-- Claim C8 (amended): the scope rename is idempotent on names that start
with `@elizaos/` *and contain no occurrence of* `@elizaos-plugins/`:
`normalizeScope` leaves such a name unchanged.  (As stated — for every
already-`@elizaos/*`-scoped name — the claim fails: `String.replace`
replaces the first occurrence of `@elizaos-plugins/` *anywhere* in the
name, not only a leading one, so an `@elizaos/`-scoped name containing
the old scope later in the string is still rewritten.) -/
theorem c8_scope_rename_idempotent (name : String)
    (_hsc : isPre ( "@elizaos/").data name.data = true)
    (hno : occursB ( "@elizaos-plugins/").data name.data = false) :
    normalizeScope name = name := by
  rw [normalizeScope]
  refine strDataEq ?_
  show replaceFirst ( "@elizaos-plugins/").data ( "@elizaos/").data name.data = name.data
  exact replaceFirst_no_occurrence _ _ (by decide) _
    (fun hocc => by rw [(occursB_iff _ _).mpr hocc] at hno; cases hno)

theorem c8_scope_rename_idempotent_witness :
    isPre ( "@elizaos/").data ( "@elizaos/plugin-x").data = true ∧
    normalizeScope ( "@elizaos/plugin-x") = ( "@elizaos/plugin-x") :=
  ⟨by decide, c8_scope_rename_idempotent ( "@elizaos/plugin-x") (by decide) (by decide)⟩

/-- Claim C8, counterexample to the claim as stated: the name
`@elizaos/@elizaos-plugins/x` is already `@elizaos/`-scoped, yet
`normalizeScope` changes it (to `@elizaos/@elizaos/x`), because the
replacement is occurrence-based, not anchored at the start. -/
theorem c8_scope_rename_cex :
    isPre ( "@elizaos/").data ( "@elizaos/@elizaos-plugins/x").data = true ∧
    normalizeScope ( "@elizaos/@elizaos-plugins/x") ≠
      ( "@elizaos/@elizaos-plugins/x") := by
  constructor
  · decide
  · intro hcon
    have heq : ( "@elizaos/@elizaos/x") = ( "@elizaos/@elizaos-plugins/x") := by
      rw [← hcon]
      rfl
    exact absurd heq (by decide)

/-- Claim C9: every method name reported for a service has survived the
filter of line 307: it is not the literal `constructor`, it does not begin
with an underscore, and it was one of the regex-scan captures. -/
theorem c9_service_method_filter (source : String) (m : String)
    (h : m ∈ extractServiceMethodNames source) :
    m ≠ ( "constructor") ∧ m.data.head? ≠ some ('_') ∧
      m ∈ serviceMethodCaptures source := by
  rw [extractServiceMethodNames, List.mem_filter] at h
  obtain ⟨hmem, hcond⟩ := h
  rw [Bool.and_eq_true] at hcond
  obtain ⟨hne, hund⟩ := hcond
  refine ⟨by simpa using hne, ?_, hmem⟩
  intro hhead
  rcases hmd : m.data with _ | ⟨c, rest⟩
  · rw [hmd] at hhead; cases hhead
  · rw [hmd] at hhead
    have hc : c = ('_') := by
      simpa using hhead
    subst hc
    rw [hmd] at hund
    have : isPre ( "_").data (('_') :: rest) = true := by
      show isPre [('_')] (('_') :: rest) = true
      simp [isPre]
    rw [this] at hund
    cases hund

theorem c9_service_method_filter_witness :
    ( "fetchData") ∈ extractServiceMethodNames c9SampleService ∧
    (( "fetchData") ≠ ( "constructor") ∧
      ( "fetchData").data.head? ≠ some ('_') ∧
      ( "fetchData") ∈ serviceMethodCaptures c9SampleService) :=
  ⟨by decide, c9_service_method_filter c9SampleService ( "fetchData") (by decide)⟩

/-- Claim C10: whenever `processPlugin` completes without propagating an
error, no write or pull-request call was issued with an empty or
whitespace-only README: the guard of lines 1295-1297 throws first, and
that throw is caught by the per-item handler, so every recorded
`createPullRequest` call carries a README whose trim is non-empty. -/
theorem c10_no_empty_persistence (env : ProcessEnv) (s : String)
    (out : ItemOutcome) (calls : List (String × String))
    (h : processPlugin env s = Except.ok (out, calls)) :
    ∀ call ∈ calls, (jsTrim call.2).data ≠ [] := by
  have hbody : processBody env (extractedRepoName s) = (out, calls) := by
    rw [processPlugin] at h
    rw [extractedRepoName]
    by_cases hurl : looksLikeUrl s = true
    · rw [if_pos hurl] at h
      rw [if_pos hurl]
      by_cases hlast : (urlLastPart s).isEmpty = true
      · rw [if_pos hlast] at h
        cases h
      · rw [if_neg hlast] at h
        exact Except.ok.inj h
    · rw [if_neg hurl] at h
      rw [if_neg hurl]
      exact Except.ok.inj h
  intro call hmem
  have hcalls := (processBody_calls env (extractedRepoName s)).1
  rw [hbody] at hcalls
  exact hcalls call hmem

theorem c10_no_empty_persistence_witness :
    processPlugin (ProcessEnv.mk (some ( "/p")) true (some ( "   x   ")) true)
      ( "plugin-a") =
      Except.ok (ItemOutcome.success ( "plugin-a"),
        [(( "plugin-a"), ( "   x   "))]) ∧
    ∀ call ∈ [(( "plugin-a"), ( "   x   "))], (jsTrim call.2).data ≠ [] :=
  ⟨by rfl,
    c10_no_empty_persistence (ProcessEnv.mk (some ( "/p")) true (some ( "   x   ")) true)
      ( "plugin-a") (ItemOutcome.success ( "plugin-a"))
      [(( "plugin-a"), ( "   x   "))] (by rfl)⟩

/-- Claim C3: the environment-variable scan deduplicates, sorts
lexicographically, and is order-independent: for every list of scanned
files the result has no duplicates and is sorted under the code-point
order; any two scans seeing the same set of captured identifiers agree;
and the spec's example file (`process.env.FOO` twice,
`runtime.getSetting("BAR")` once) yields exactly `["BAR", "FOO"]`. -/
theorem c3_env_scan_sorted_dedup :
    (∀ files : List String, (envVarsResult files).Nodup ∧
      (envVarsResult files).Sorted strLe) ∧
    (∀ files1 files2 : List String,
      (∀ x : String, (∃ f ∈ files1, x ∈ envCaptures f) ↔
        (∃ f ∈ files2, x ∈ envCaptures f)) →
      envVarsResult files1 = envVarsResult files2) ∧
    envVarsResult [c3SampleFile] = [( "BAR"), ( "FOO")] := by
  have hnodup : ∀ files : List String, (envVarsResult files).Nodup :=
    fun files =>
      (List.perm_insertionSort strLe (collectEnvVars files)).nodup_iff.mpr
        (collectEnvVars_nodup files)
  have hsorted : ∀ files : List String, (envVarsResult files).Sorted strLe :=
    fun files => List.sorted_insertionSort strLe (collectEnvVars files)
  refine ⟨fun files => ⟨hnodup files, hsorted files⟩, ?_, by decide⟩
  intro files1 files2 hsame
  refine List.eq_of_perm_of_sorted ?_ (hsorted files1) (hsorted files2)
  refine (List.perm_insertionSort strLe (collectEnvVars files1)).trans
    (List.Perm.trans ?_ (List.perm_insertionSort strLe (collectEnvVars files2)).symm)
  rw [List.perm_ext_iff_of_nodup (collectEnvVars_nodup files1)
    (collectEnvVars_nodup files2)]
  intro x
  rw [mem_collectEnvVars, mem_collectEnvVars]
  exact hsame x

theorem c3_env_scan_sorted_dedup_witness :
    envVarsResult [c3SampleFile, c3SampleFileB] =
      envVarsResult [c3SampleFileB, c3SampleFile] :=
  c3_env_scan_sorted_dedup.2.1 [c3SampleFile, c3SampleFileB]
    [c3SampleFileB, c3SampleFile]
    (fun x =>
      ⟨fun h => by
        obtain ⟨f, hf, hx⟩ := h
        exact ⟨f, by simpa [or_comm] using hf, hx⟩,
      fun h => by
        obtain ⟨f, hf, hx⟩ := h
        exact ⟨f, by simpa [or_comm] using hf, hx⟩⟩)

/-- Claim C4 (amended): on the representative index file of the spec's
example — which imports `\x7b transferAction as sendToken \x7d` from
`./actions`, lists `sendToken` in its `actions` array, and binds the
local name `sendToken` by no other import — the extraction records the
component as `transferAction`, the original imported identifier, not as
the alias.  (As stated — for *every* index-file text with that import and
that array entry — the claim fails: the import map is keyed by local
name, so a later import that rebinds `sendToken` overwrites the alias
entry and the component is recorded under a different name.) -/
theorem c4_alias_resolution :
    extractActionNames c4Index = [( "transferAction")] := by
  decide

/-- Claim C4, counterexample to the claim as stated: this index file
does import `\x7b transferAction as sendToken \x7d` from `./actions` and
does list `sendToken` in its `actions` array, yet the extraction records
`sendToken` (the second, plain `./actions` import of the same local name
overwrites the alias mapping), and `transferAction` is absent. -/
theorem c4_alias_cex :
    occursB ( "import \x7b transferAction as sendToken \x7d from \x27./actions\x27").data
      c4CexIndex.data = true ∧
    occursB ( "actions: [sendToken]").data c4CexIndex.data = true ∧
    ( "transferAction") ∉ extractActionNames c4CexIndex ∧
    ( "sendToken") ∈ extractActionNames c4CexIndex := by
  decide

/-- The fallback document, at the character-list level. -/
theorem generateReadmeFromTemplate_data (pi : PluginInfo) (template : String) :
    (generateReadmeFromTemplate pi template).data =
      applyChain (substitutionChain pi) template.data := by
  rw [generateReadmeFromTemplate]

/-- A thrown completion call always answers with the template fallback. -/
theorem generateReadmeWithAI_onThrow (pi : PluginInfo) (template : String)
    (ex : Option String) :
    generateReadmeWithAI pi template ex none =
      generateReadmeFromTemplate pi template := by
  rw [generateReadmeWithAI]

/-- A substitution chain distributes over list append. -/
theorem applyChain_append (l1 l2 : List (List Char × List Char)) (s : List Char) :
    applyChain (l1 ++ l2) s = applyChain l2 (applyChain l1 s) := by
  simp [applyChain, List.foldl_append]

/-- A one-link chain is a single global replacement. -/
theorem applyChain_one (pr : List Char × List Char) (s : List Char) :
    applyChain [pr] s = replaceAll pr.1 pr.2 s := rfl

/-- Claim C2 (amended): when the chat-completion call throws,
`generateReadmeWithAI` returns the deterministic template-substitution
result, and for every plugin whose `packageName` is non-empty,
dollar-free, brace-free, and not a fragment of any later placeholder
token, that result is non-empty and contains the `packageName` string.
The no-`$` hypothesis `hdl` is a model-fidelity bound, not used by the
proof: `replaceAll` inserts the replacement literally, which matches
JavaScript `.replace` replacement-string semantics (dollar escapes such
as `$&`) exactly when the replacement contains no `$`, so the theorem
speaks only for dollar-free `packageName`s.  (As stated — for *every*
non-empty `packageName`, e.g. the spec's `@elizaos/plugin-x`, which
satisfies all these side conditions — the claim fails: a `packageName`
that itself spells a later placeholder is substituted away again by the
later pass, see the counterexample.) -/
theorem c2_fallback_contains_package_name (pi : PluginInfo)
    (hne : pi.packageName ≠ ( ""))
    (_hdl : ('$' : Char) ∉ pi.packageName.data)
    (hbl : ('\x7b' : Char) ∉ pi.packageName.data)
    (hbr : ('\x7d' : Char) ∉ pi.packageName.data)
    (hfrag : ∀ p ∈ laterPlaceholders, occursB pi.packageName.data p = false) :
    generateReadmeWithAI pi readmeTemplateText none none =
      generateReadmeFromTemplate pi readmeTemplateText ∧
    generateReadmeFromTemplate pi readmeTemplateText ≠ ( "") ∧
    pi.packageName.data <:+:
      (generateReadmeFromTemplate pi readmeTemplateText).data := by
  have hin : phPluginName.data <:+: readmeTemplateText.data := by
    have htake : occursB phPluginName.data (readmeTemplateText.data.take 320) = true := by
      decide
    obtain ⟨u, w, huw⟩ := (occursB_iff _ _).mp htake
    refine ⟨u, w ++ readmeTemplateText.data.drop 320, ?_⟩
    rw [← List.append_assoc, huw]
    exact List.take_append_drop 320 readmeTemplateText.data
  have hpost : ∀ pr ∈
    [ (phPluginDescription.data, pi.description.data),
      (phPackageName.data, pi.packageName.data),
      (phRepositoryUrl.data, pi.repository.data),
      (phEnvVars.data, (envVarsSection pi).data),
      (phActionsList.data, (actionsListSection pi).data),
      (phServicesList.data, (servicesListSection pi).data),
      (phProvidersList.data, (providersListSection pi).data),
      (phActionsDetailed.data, (actionsDetailedSection pi).data),
      (phServicesDetailed.data, (servicesDetailedSection pi).data),
      (phProvidersDetailed.data, (providersDetailedSection pi).data) ],
      noClash pi.packageName.data pr.1 = true := by
    intro pr hpr
    fin_cases hpr <;> dsimp only <;>
      exact noClash_of_braces hbl hbr (by decide) (by decide) (hfrag _ (by decide))
  have h := applyChain_intro []
    [ (phPluginDescription.data, pi.description.data),
      (phPackageName.data, pi.packageName.data),
      (phRepositoryUrl.data, pi.repository.data),
      (phEnvVars.data, (envVarsSection pi).data),
      (phActionsList.data, (actionsListSection pi).data),
      (phServicesList.data, (servicesListSection pi).data),
      (phProvidersList.data, (providersListSection pi).data),
      (phActionsDetailed.data, (actionsDetailedSection pi).data),
      (phServicesDetailed.data, (servicesDetailedSection pi).data),
      (phProvidersDetailed.data, (providersDetailedSection pi).data) ]
    phPluginName.data pi.packageName.data (by decide)
    (by intro pr hpr; cases hpr) hpost readmeTemplateText.data hin
  have hsc : substitutionChain pi = [] ++
      (phPluginName.data, pi.packageName.data) ::
    [ (phPluginDescription.data, pi.description.data),
      (phPackageName.data, pi.packageName.data),
      (phRepositoryUrl.data, pi.repository.data),
      (phEnvVars.data, (envVarsSection pi).data),
      (phActionsList.data, (actionsListSection pi).data),
      (phServicesList.data, (servicesListSection pi).data),
      (phProvidersList.data, (providersListSection pi).data),
      (phActionsDetailed.data, (actionsDetailedSection pi).data),
      (phServicesDetailed.data, (servicesDetailedSection pi).data),
      (phProvidersDetailed.data, (providersDetailedSection pi).data) ] := rfl
  have hinf : pi.packageName.data <:+:
      (generateReadmeFromTemplate pi readmeTemplateText).data := by
    rw [generateReadmeFromTemplate_data, hsc]
    exact h
  have hdata : pi.packageName.data ≠ [] := by
    intro hd
    exact hne (strDataEq hd)
  refine ⟨generateReadmeWithAI_onThrow pi readmeTemplateText none, ?_, hinf⟩
  intro hcon
  rw [hcon] at hinf
  exact hdata (List.eq_nil_of_infix_nil hinf)

theorem c2_fallback_contains_package_name_witness :
    c2SamplePlugin.packageName ≠ ( "") ∧
    (generateReadmeWithAI c2SamplePlugin readmeTemplateText none none =
      generateReadmeFromTemplate c2SamplePlugin readmeTemplateText ∧
    generateReadmeFromTemplate c2SamplePlugin readmeTemplateText ≠ ( "") ∧
    c2SamplePlugin.packageName.data <:+:
      (generateReadmeFromTemplate c2SamplePlugin readmeTemplateText).data) :=
  ⟨by decide,
    c2_fallback_contains_package_name c2SamplePlugin (by decide) (by decide)
      (by decide) (by decide) (by decide)⟩

/-- Claim C2, counterexample to the claim as stated: the plugin whose
non-empty `packageName` is the literal text `\x7b\x7bPROVIDERS_DETAILED\x7d\x7d`
gets that text substituted into the template by the first pass, but the
chain's final pass rewrites every occurrence of that very token to
`No providers found in this plugin.`, so the fallback document does not
contain the `packageName` string. -/
theorem c2_fallback_cex :
    c2CexPlugin.packageName ≠ ( "") ∧
    ¬ c2CexPlugin.packageName.data <:+:
      (generateReadmeWithAI c2CexPlugin readmeTemplateText none none).data := by
  have hpr : ¬ phProvidersDetailed.data <:+:
      (providersDetailedSection c2CexPlugin).data :=
    fun h => absurd ((occursB_iff _ _).mpr h) (by decide)
  have hrp : ¬ (providersDetailedSection c2CexPlugin).data <:+:
      phProvidersDetailed.data :=
    fun h => absurd ((occursB_iff _ _).mpr h) (by decide)
  have hsplit : substitutionChain c2CexPlugin =
      List.take 10 (substitutionChain c2CexPlugin) ++
        [(phProvidersDetailed.data, (providersDetailedSection c2CexPlugin).data)] := by
    rfl
  refine ⟨by decide, ?_⟩
  intro hcon
  rw [generateReadmeWithAI_onThrow, generateReadmeFromTemplate_data] at hcon
  rw [show c2CexPlugin.packageName = phProvidersDetailed from rfl] at hcon
  rw [hsplit, applyChain_append, applyChain_one] at hcon
  dsimp only at hcon
  exact replaceAll_clears phProvidersDetailed.data
    (providersDetailedSection c2CexPlugin).data (by decide) (by decide) (by decide)
    (by decide) (by decide) hpr hrp _ hcon
